import Mathlib

/-!
Verification of the record-matching, categorization and deterministic-naming
core of the expense-reimbursement tool.

The Python sources `file_organizer.py` and `app/analyzer.py` are embedded
shallowly:

* Python `float` amounts are modelled as exact rationals (`ℚ`); the claims
  under study never depend on binary floating-point rounding, and the float
  literals `0.01` / `0.05` are modelled by `1/100` / `5/100`.
* Python strings are Lean `String`s; `\d` and `\s` of the regular expressions
  are modelled as ASCII digits and ASCII whitespace (`Char.isDigit`,
  `Char.isWhitespace`), and `str.lower` as ASCII lowering — the inputs the
  program cares about (CJK labels, ASCII digits and separators) are unaffected.
* Each regular expression of the source is compiled by hand into a scanner
  that reproduces the leftmost / first-alternative / greedy-or-lazy behaviour
  of Python `re` for that concrete pattern; `re.findall` resumes after each
  (always nonempty) match.
* CPython `id()`-based bookkeeping of `_pair_vouchers_and_invoices` is
  modelled by indexing the invoice list (`withIdx`), which is faithful as the
  program constructs one fresh record object per input file.
* Filesystem state relevant to `_move_file` is a finite set of occupied
  destination paths; the physical move is out of scope of the spec.
-/

/-! ## Decimal rendering of naturals (Python `f"{n}"` / `str(n)`) -/

/-- Little-endian decimal digits of `n`, with explicit fuel (fuel `≥ n`
suffices); structural recursion keeps the function kernel-reducible. -/
def digitsRevFuel : ℕ → ℕ → List ℕ
  | 0, _ => []
  | _, 0 => []
  | f + 1, n + 1 => (n + 1) % 10 :: digitsRevFuel f ((n + 1) / 10)

/-- Digit value to character, `0 ↦ '0'`, …, `9 ↦ '9'`. -/
def digitToChar (d : ℕ) : Char := Char.ofNat (48 + d)

/-- Decimal rendering of a natural number, as Python `str(n)`. -/
def natDec (n : ℕ) : String :=
  if n = 0 then "0" else ⟨((digitsRevFuel n n).reverse).map digitToChar⟩

/-- Python `f"{n:02d}"`: pad to two digits with a leading zero. -/
def pad2 (n : ℕ) : String := if n < 10 then "0" ++ natDec n else natDec n

/-- Value of a little-endian digit list. -/
def ofDigitsRev : List ℕ → ℕ
  | [] => 0
  | d :: ds => d + 10 * ofDigitsRev ds

/-! ## Helpers on characters and strings -/

/-- Numeric value of a list of ASCII digit characters (Python `int`). -/
def digitsVal (cs : List Char) : ℕ :=
  cs.foldl (fun n c => n * 10 + (c.toNat - 48)) 0

/-- Split a character list at every occurrence of `sep` (Python
`str.split(sep)` / `String.splitOn` for a one-character separator). -/
def splitOnChar (sep : Char) : List Char → List (List Char)
  | [] => [[]]
  | c :: cs =>
    if c = sep then [] :: splitOnChar sep cs
    else
      match splitOnChar sep cs with
      | [] => [[c]]
      | g :: gs => (c :: g) :: gs

/-- Strip leading and trailing whitespace from a character list
(Python `str.strip()`). -/
def trimWs (cs : List Char) : List Char :=
  ((cs.dropWhile Char.isWhitespace).reverse.dropWhile Char.isWhitespace).reverse

/-- Model of `str.strip()` on strings. -/
def strTrim (s : String) : String := ⟨trimWs s.data⟩

/-- First `n` characters of a string (Python slicing by code points). -/
def takeChars (n : ℕ) (s : String) : String := ⟨s.data.take n⟩

/-- ASCII lowering of a string (model of Python `str.lower`). -/
def strLower (s : String) : String := ⟨s.data.map Char.toLower⟩

/-- Occurrence of `needle` as a contiguous run inside a character list. -/
def occursIn (needle : List Char) : List Char → Bool
  | [] => needle.isEmpty
  | c :: cs => needle.isPrefixOf (c :: cs) || occursIn needle cs

/-- Substring occurrence, Python `needle in haystack`. -/
def strContains (haystack needle : String) : Bool :=
  occursIn needle.data haystack.data

/-! ## Gregorian calendar (CPython `datetime`) -/

/-- Proleptic-Gregorian leap year. -/
def isLeapYear (y : ℕ) : Bool := (y % 4 = 0 && y % 100 != 0) || y % 400 = 0

/-- Length of month `m` of year `y` (`m` is 1-based). -/
def daysInMonth (y m : ℕ) : ℕ :=
  if m = 2 then (if isLeapYear y then 29 else 28)
  else if m = 4 ∨ m = 6 ∨ m = 9 ∨ m = 11 then 30
  else 31

/-- Days in year `y` strictly before month `m`. -/
def daysBeforeMonth (y m : ℕ) : ℕ :=
  (List.range (m - 1)).foldl (fun acc i => acc + daysInMonth y (i + 1)) 0

/-- Proleptic-Gregorian ordinal of a date, as `datetime.toordinal`. -/
def dateOrdinal : ℕ × ℕ × ℕ → ℕ
  | (y, m, d) =>
    (y - 1) * 365 + (y - 1) / 4 - (y - 1) / 100 + (y - 1) / 400
      + daysBeforeMonth y m + d

/-- Model of `datetime.strptime(s, "%Y-%m-%d")`: exactly
`\d{4}-\d{1,2}-\d{1,2}` matching the whole string, followed by the
constructor's calendar validation; `none` models the raised `ValueError`. -/
def parseYmd (s : String) : Option (ℕ × ℕ × ℕ) :=
  match splitOnChar '-' s.data with
  | [ys, ms, ds] =>
    if ys.length = 4 && ys.all Char.isDigit
        && 1 ≤ ms.length && ms.length ≤ 2 && ms.all Char.isDigit
        && 1 ≤ ds.length && ds.length ≤ 2 && ds.all Char.isDigit then
      let y := digitsVal ys
      let m := digitsVal ms
      let d := digitsVal ds
      if 1 ≤ y && 1 ≤ m && m ≤ 12 && 1 ≤ d && d ≤ daysInMonth y m then
        some (y, m, d)
      else none
    else none
  | _ => none

/-- Absolute difference in days between two parsed dates
(`abs((v_date - i_date).days)`). -/
def daysDiff (a b : ℕ × ℕ × ℕ) : ℕ :=
  ((dateOrdinal a : ℤ) - (dateOrdinal b : ℤ)).natAbs

/-! ## Data model: `InvoiceInfo` (`app/analyzer.py`) -/

/-- The record processed throughout the program (dataclass `InvoiceInfo`).
Amounts are modelled as exact rationals. -/
structure InvoiceInfo where
  type : String
  subtype : String
  amount : ℚ
  date : String
  service_date : String
  merchant : String
  invoice_number : String
  is_invoice : Bool
  description : String
  raw_text : String
  file_path : String
  order_number : String
deriving DecidableEq, Repr

/-- Model of `self.service_date or self.date or ""`: the effective consumption date. -/
def InvoiceInfo.get_actual_date (i : InvoiceInfo) : String :=
  if i.service_date ≠ "" then i.service_date
  else if i.date ≠ "" then i.date
  else ""

namespace FileOrganizer

/-- The character class of `re.sub(r'[（）()【】\[\]有限公司科技股份]', '', name)`:
each of these characters is removed wherever it occurs. -/
def removedChars : List Char :=
  ['（', '）', '(', ')', '【', '】', '[', ']',
   '有', '限', '公', '司', '科', '技', '股', '份']

/-- Model of `FileOrganizer._normalize_merchant`: drop the character class, strip
surrounding whitespace, lower-case. -/
def _normalize_merchant (name : String) : String :=
  if name = "" then ""
  else strLower (strTrim ⟨name.data.filter (fun c => !removedChars.contains c)⟩)

/-- Invoice-side comparison date of the score function:
`invoice.service_date or invoice.date`. -/
def invoiceServiceOrIssue (invoice : InvoiceInfo) : String :=
  if invoice.service_date ≠ "" then invoice.service_date else invoice.date

/-- Identity block of `_calculate_match_score` (subtype `+3` / merchant `+2`). -/
def identScoreSrc (voucher invoice : InvoiceInfo) : ℕ :=
  if _normalize_merchant voucher.subtype = _normalize_merchant invoice.subtype then 3
  else if _normalize_merchant voucher.merchant = _normalize_merchant invoice.merchant then 2
  else 0

/-- Date block of `_calculate_match_score`: both date strings nonempty, both
parse, difference `0` days `+2`, `≤ 1` day `+1`; a `ValueError` is swallowed
(`except ValueError: pass`), contributing `0`. -/
def dateScoreSrc (voucher invoice : InvoiceInfo) : ℕ :=
  let voucher_date := voucher.get_actual_date
  let invoice_service_date := invoiceServiceOrIssue invoice
  if voucher_date ≠ "" ∧ invoice_service_date ≠ "" then
    match parseYmd voucher_date, parseYmd invoice_service_date with
    | some v_date, some i_date =>
      let days_diff := daysDiff v_date i_date
      if days_diff = 0 then 2 else if days_diff ≤ 1 then 1 else 0
    | _, _ => 0
  else 0

/-- Amount block of `_calculate_match_score`: both amounts positive, relative
error within `1%` `+3`, within `5%` `+1`. -/
def amountScoreSrc (voucher invoice : InvoiceInfo) : ℕ :=
  if 0 < voucher.amount ∧ 0 < invoice.amount then
    let diff := |voucher.amount - invoice.amount|
    let max_amount := max voucher.amount invoice.amount
    if diff ≤ max_amount * (1 / 100) then 3
    else if diff ≤ max_amount * (5 / 100) then 1
    else 0
  else 0

/-- Type block of `_calculate_match_score` (`+1` on equal category tags). -/
def typeScoreSrc (voucher invoice : InvoiceInfo) : ℕ :=
  if voucher.type = invoice.type then 1 else 0

/-- Model of `FileOrganizer._calculate_match_score`: the running `score` accumulates
the four independent blocks, hence equals their sum. -/
def _calculate_match_score (voucher invoice : InvoiceInfo) : ℕ :=
  identScoreSrc voucher invoice + dateScoreSrc voucher invoice
    + amountScoreSrc voucher invoice + typeScoreSrc voucher invoice

end FileOrganizer

/-! ## Matching engine (`FileOrganizer._pair_vouchers_and_invoices`) -/

/-- Pair each list element with its position (models CPython object identity:
`used_invoices` stores `id(invoice)`, and distinct list entries are distinct
objects). -/
def withIdx : ℕ → List α → List (ℕ × α)
  | _, [] => []
  | n, a :: as => (n, a) :: withIdx (n + 1) as

namespace FileOrganizer

/-- The inner loop over `invoices`: keep the current best match and score;
replace only on a strictly larger score that is at least `2`. -/
def findBestAux (voucher : InvoiceInfo) (used : Finset ℕ) :
    List (ℕ × InvoiceInfo) → Option (ℕ × InvoiceInfo) → ℕ →
      Option (ℕ × InvoiceInfo) × ℕ
  | [], best, best_score => (best, best_score)
  | p :: rest, best, best_score =>
    if p.1 ∈ used then findBestAux voucher used rest best best_score
    else
      let score := _calculate_match_score voucher p.2
      if best_score < score ∧ 2 ≤ score then findBestAux voucher used rest (some p) score
      else findBestAux voucher used rest best best_score

/-- Scan all invoices for a voucher (`best_match = None`, `best_score = 0`). -/
def findBest (voucher : InvoiceInfo) (used : Finset ℕ)
    (idxInvoices : List (ℕ × InvoiceInfo)) : Option (ℕ × InvoiceInfo) × ℕ :=
  findBestAux voucher used idxInvoices none 0

/-- The outer loop over `vouchers`: a matched voucher emits `[voucher, match]`
and claims the invoice; an unmatched voucher emits `[voucher]`. Returns the
groups and the final claimed set. -/
def pairLoop (idxInvoices : List (ℕ × InvoiceInfo)) :
    List InvoiceInfo → Finset ℕ → List (List InvoiceInfo) × Finset ℕ
  | [], used => ([], used)
  | voucher :: vs, used =>
    match (findBest voucher used idxInvoices).1 with
    | some p =>
      let r := pairLoop idxInvoices vs (insert p.1 used)
      ([voucher, p.2] :: r.1, r.2)
    | none =>
      let r := pairLoop idxInvoices vs used
      ([voucher] :: r.1, r.2)

/-- Model of `FileOrganizer._pair_vouchers_and_invoices`: split the batch, run the
greedy voucher loop, then emit every unclaimed invoice as a singleton. -/
def _pair_vouchers_and_invoices (invoice_infos : List InvoiceInfo) :
    List (List InvoiceInfo) :=
  let invoices := invoice_infos.filter (fun i => i.is_invoice)
  let vouchers := invoice_infos.filter (fun i => !i.is_invoice)
  let idxInvoices := withIdx 0 invoices
  let r := pairLoop idxInvoices vouchers ∅
  r.1 ++ (idxInvoices.filter (fun p => decide (p.1 ∉ r.2))).map (fun p => [p.2])

/-! Spec-side description of the selection rule (claim C2): among the
unclaimed invoices the maximum score decides; the earliest-indexed invoice
achieving it wins, and a selection happens only when that maximum is `≥ 2`. -/

/-- Maximum match score of a voucher against a candidate list (`0` if empty). -/
def bestScoreOf (voucher : InvoiceInfo) (cand : List (ℕ × InvoiceInfo)) : ℕ :=
  (cand.map (fun p => _calculate_match_score voucher p.2)).foldr max 0

/-- Spec-side selection: the earliest unclaimed invoice attaining the maximum
score, provided that maximum is at least `2`. -/
def selectInvoice (voucher : InvoiceInfo) (used : Finset ℕ)
    (idxInvoices : List (ℕ × InvoiceInfo)) : Option (ℕ × InvoiceInfo) :=
  let cand := idxInvoices.filter (fun p => decide (p.1 ∉ used))
  let M := bestScoreOf voucher cand
  if 2 ≤ M then cand.find? (fun p => _calculate_match_score voucher p.2 = M)
  else none

/-- Spec-side voucher loop, literal transcription of claim C2's sentence. -/
def specPairLoop (idxInvoices : List (ℕ × InvoiceInfo)) :
    List InvoiceInfo → Finset ℕ → List (List InvoiceInfo) × Finset ℕ
  | [], used => ([], used)
  | voucher :: vs, used =>
    match selectInvoice voucher used idxInvoices with
    | some p =>
      let r := specPairLoop idxInvoices vs (insert p.1 used)
      ([voucher, p.2] :: r.1, r.2)
    | none =>
      let r := specPairLoop idxInvoices vs used
      ([voucher] :: r.1, r.2)

/-- Spec-side matching engine built on `selectInvoice`. -/
def specPairing (invoice_infos : List InvoiceInfo) : List (List InvoiceInfo) :=
  let invoices := invoice_infos.filter (fun i => i.is_invoice)
  let vouchers := invoice_infos.filter (fun i => !i.is_invoice)
  let idxInvoices := withIdx 0 invoices
  let r := specPairLoop idxInvoices vouchers ∅
  r.1 ++ (idxInvoices.filter (fun p => decide (p.1 ∉ r.2))).map (fun p => [p.2])

/-! ## Classifier (`FileOrganizer.organize`, bucket decision) -/

/-- Model of `config.INVOICE_CATEGORIES` (insertion order of the dict). -/
def INVOICE_CATEGORIES : List (String × String) :=
  [("taxi", "打车票"), ("train", "火车飞机票"), ("flight", "火车飞机票"),
   ("hotel", "住宿费"), ("meal", "餐费"), ("other", "其他")]

/-- Model of `config.PENDING_CATEGORY`. -/
def PENDING_CATEGORY : String := "待确认"

/-- Python `INVOICE_CATEGORIES.get(key, default)`. -/
def categoriesGet (key default : String) : String :=
  match INVOICE_CATEGORIES.find? (fun p => p.1 = key) with
  | some p => p.2
  | none => default

/-- Model of `FileOrganizer._get_category`: prefer a non-`other` invoice tag, then a
non-`other` voucher tag, else `other`. -/
def _get_category (group : List InvoiceInfo) : String :=
  match group.find? (fun info => info.is_invoice && info.type ≠ "other") with
  | some info => info.type
  | none =>
    match group.find? (fun info => info.type ≠ "other") with
    | some info => info.type
    | none => "other"

/-- The `needs_confirmation` test of `organize`: a singleton formal invoice
with empty `service_date`. -/
def needsConfirmation (group : List InvoiceInfo) : Bool :=
  match group with
  | [info] => info.is_invoice && info.service_date = ""
  | _ => false

/-- Bucket decision of `organize` for one group. -/
def bucketFor (group : List InvoiceInfo) : String :=
  if needsConfirmation group then PENDING_CATEGORY
  else categoriesGet (_get_category group) "其他"

/-- The `group_date` computation of `organize`: the first voucher's effective
date, else the first nonempty effective date of any member. -/
def groupDate (group : List InvoiceInfo) : String :=
  let d :=
    match group.find? (fun info => !info.is_invoice) with
    | some info => info.get_actual_date
    | none => ""
  if d ≠ "" then d
  else
    match group.find? (fun info => info.get_actual_date ≠ "") with
    | some info => info.get_actual_date
    | none => ""

end FileOrganizer

/-! ## Deterministic namer (`_generate_filename` and helpers) -/

namespace FileOrganizer

/-- The filename-illegal characters of `re.sub(r'[<>:"/\\|?*]', '', name)`. -/
def illegalChars : List Char := ['<', '>', ':', '"', '/', '\\', '|', '?', '*']

/-- Model of `re.sub(r'\s+', ' ', name)`: collapse every whitespace run to one space.
The flag records whether the previous character was inside a run. -/
def collapseWs : Bool → List Char → List Char
  | _, [] => []
  | prevWs, c :: cs =>
    if c.isWhitespace then
      if prevWs then collapseWs true cs else ' ' :: collapseWs true cs
    else c :: collapseWs false cs

/-- Model of `FileOrganizer._sanitize_filename`. -/
def _sanitize_filename (name : String) : String :=
  let s := name.data.filter (fun c => !illegalChars.contains c)
  (⟨trimWs (collapseWs false s)⟩ : String)

/-- Lazy tail of the trip patterns, `(.+?)(?:的|$)`: the shortest nonempty
newline-free run ended by `的` or by the end of the text. Returns the captured
run. -/
def findLazyB : List Char → Option (List Char)
  | [] => none
  | [c] => if c = '\n' then none else some [c]
  | c :: t :: rest =>
    if c = '\n' then none
    else if t = '的' then some [c]
    else (findLazyB (t :: rest)).map (fun b => c :: b)

/-- Lazy head of the trip patterns, `(.+?)sep(.+?)(?:的|$)` after a fixed
start: grow the first group lazily; on each separator try the tail, absorbing
the separator into the group when the tail fails (regex backtracking). -/
def splitSep (sep : Char → Bool) : List Char → List Char → Option (List Char × List Char)
  | _, [] => none
  | _, [_] => none
  | accA, c :: t :: rest =>
    if c = '\n' then none
    else if sep t then
      match findLazyB rest with
      | some b => some (accA ++ [c], b)
      | none => splitSep sep (accA ++ [c, t]) rest
    else splitSep sep (accA ++ [c]) (t :: rest)

/-- Search for `从(.+?)到(.+?)(?:的|$)` (leftmost match). -/
def searchTripFrom : List Char → Option (List Char × List Char)
  | [] => none
  | c :: cs =>
    if c = '从' then
      match splitSep (fun x => x = '到') [] cs with
      | some r => some r
      | none => searchTripFrom cs
    else searchTripFrom cs

/-- Search for `(.+?)[至到\-→](.+?)(?:的|$)` (leftmost match). -/
def searchTripSep : List Char → Option (List Char × List Char)
  | [] => none
  | c :: cs =>
    match splitSep (fun x => x = '至' ∨ x = '到' ∨ x = '-' ∨ x = '→') [] (c :: cs) with
    | some r => some r
    | none => searchTripSep cs

/-- Lazy group of `(.+?)出发`: shortest nonempty newline-free run followed by
the literal `出发`. -/
def splitChuFa (accA : List Char) : List Char → Option (List Char)
  | [] => none
  | c :: cs =>
    if c = '\n' then none
    else if ['出', '发'].isPrefixOf cs then some (accA ++ [c])
    else splitChuFa (accA ++ [c]) cs

/-- Search for `(.+?)出发` (leftmost match). -/
def searchTripChuFa : List Char → Option (List Char)
  | [] => none
  | c :: cs =>
    match splitChuFa [] (c :: cs) with
    | some r => some r
    | none => searchTripChuFa cs

/-- Model of `FileOrganizer._extract_trip_info`: first matching pattern wins; two
groups yield `A-B` (both stripped), one group yields `A`; otherwise the first
20 characters of the description. -/
def _extract_trip_info (description : String) : String :=
  if description = "" then ""
  else
    match searchTripFrom description.data with
    | some (a, b) => (⟨trimWs a⟩ : String) ++ "-" ++ (⟨trimWs b⟩ : String)
    | none =>
      match searchTripSep description.data with
      | some (a, b) => (⟨trimWs a⟩ : String) ++ "-" ++ (⟨trimWs b⟩ : String)
      | none =>
        match searchTripChuFa description.data with
        | some a => (⟨trimWs a⟩ : String)
        | none =>
          if description.length > 20 then takeChars 20 description else description

/-- Model of `pathlib.Path(p).name`: final nonempty path component. -/
def pathName (p : String) : String :=
  match ((splitOnChar '/' p.data).filter (fun s => s ≠ [])).getLast? with
  | some s => ⟨s⟩
  | none => ""

/-- Index of the last `'.'` of a character list, if any. -/
def lastDotIdx (cs : List Char) : Option ℕ :=
  (withIdx 0 cs).foldl (fun acc p => if p.2 = '.' then some p.1 else acc) none

/-- Model of `pathlib.Path(p).suffix`: the last suffix of the final component, empty
when the dot is leading or trailing. -/
def pathSuffix (p : String) : String :=
  let name := pathName p
  match lastDotIdx name.data with
  | some i => if 0 < i ∧ i < name.length - 1 then ⟨name.data.drop i⟩ else ""
  | none => ""

/-- Round to the nearest integer, ties to even (CPython `format(x, '.2f')`
rounds its decimal conversion half-to-even). -/
def roundHalfEven (q : ℚ) : ℤ :=
  let f := ⌊q⌋
  let frac := q - f
  if frac < 1 / 2 then f
  else if 1 / 2 < frac then f + 1
  else if f % 2 = 0 then f else f + 1

/-- Python `f"{x:.2f}"` for the nonnegative amounts the namer prints. -/
def formatAmount2 (q : ℚ) : String :=
  let cents := (roundHalfEven (q * 100)).toNat
  natDec (cents / 100) ++ "." ++ pad2 (cents % 100)

/-- Python `"_".join(parts)`. -/
def joinUnderscore : List String → String
  | [] => ""
  | [p] => p
  | p :: ps => p ++ "_" ++ joinUnderscore ps

/-- Model of `FileOrganizer._generate_filename`. -/
def _generate_filename (info : InvoiceInfo) (index total : ℕ)
    (group_date : String) : String :=
  let suffix := pathSuffix info.file_path
  let parts : List String := []
  let parts := if total > 1 then parts ++ [pad2 index] else parts
  let actual_date := if group_date ≠ "" then group_date else info.get_actual_date
  let parts := if actual_date ≠ "" then parts ++ [actual_date] else parts
  let doc_type := if info.is_invoice then "发票" else "凭证"
  let parts := parts ++ [doc_type]
  let merchant := if info.subtype ≠ "" then info.subtype else info.merchant
  let parts :=
    if merchant ≠ "" then parts ++ [takeChars 12 (_sanitize_filename merchant)] else parts
  let parts := if 0 < info.amount then parts ++ [formatAmount2 info.amount ++ "元"] else parts
  let parts :=
    if info.description ≠ "" then
      let desc := _extract_trip_info info.description
      if desc ≠ "" then parts ++ [takeChars 15 (_sanitize_filename desc)] else parts
    else parts
  let filename := if parts ≠ [] then joinUnderscore parts else "未知文件"
  filename ++ suffix

/-- The per-group renaming loop of `organize`
(`for idx, info in enumerate(group, 1)`). -/
def organizeGroupFiles (group : List InvoiceInfo) : List String :=
  (withIdx 1 group).map
    (fun p => _generate_filename p.2 p.1 group.length (groupDate group))

end FileOrganizer

/-! ## Collision resolver (`FileOrganizer._move_file`) -/

namespace FileOrganizer

/-- The `n`-th destination candidate: the original `stem ++ suffix`, then
`stem_N ++ suffix` for `N = 1, 2, …` (the stem is taken from the original
destination once and reused for every candidate). -/
def candidate (stem suffix : String) : ℕ → String
  | 0 => stem ++ suffix
  | n + 1 => stem ++ "_" ++ natDec (n + 1) ++ suffix

/-- The `while dst.exists()` loop: return the first candidate index `≥ i`
whose path is not occupied. Fuel-based so the definition kernel-reduces;
`occupied.card + 1` fuel always suffices. -/
def resolveLoop (occupied : Finset String) (stem suffix : String) : ℕ → ℕ → ℕ
  | 0, i => i
  | fuel + 1, i =>
    if candidate stem suffix i ∈ occupied then resolveLoop occupied stem suffix fuel (i + 1)
    else i

/-- Index chosen by the collision loop of `_move_file`. -/
def resolveIdx (occupied : Finset String) (stem suffix : String) : ℕ :=
  resolveLoop occupied stem suffix (occupied.card + 1) 0

/-- Final destination path computed by `_move_file` (the copy/move I/O that
then happens at this path is outside the core). -/
def resolvedTarget (occupied : Finset String) (stem suffix : String) : String :=
  candidate stem suffix (resolveIdx occupied stem suffix)

/-- Sequential placement of `K` records that all map naively to the same
destination `stem ++ suffix`, starting from an empty output directory: each
placement occupies the path it resolved to. Returns the occupied set and the
assigned paths in order. -/
def placeK (stem suffix : String) : ℕ → Finset String × List String
  | 0 => (∅, [])
  | k + 1 =>
    let r := placeK stem suffix k
    let p := resolvedTarget r.1 stem suffix
    (insert p r.1, r.2 ++ [p])

end FileOrganizer

/-! ## Local field extractor (`app/analyzer.py`, class `LocalAnalyzer`) -/

namespace LocalAnalyzer

/-- Model of `config.CATEGORY_KEYWORDS` (dict insertion order). -/
def CATEGORY_KEYWORDS : List (String × List String) :=
  [("taxi", ["滴滴", "高德", "美团打车", "曹操", "首汽", "出租车", "网约车", "快车", "专车", "打车"]),
   ("train", ["12306", "火车票", "高铁", "动车", "铁路", "车票"]),
   ("flight", ["航空", "机票", "登机牌", "航班", "携程", "飞猪", "去哪儿"]),
   ("hotel", ["酒店", "宾馆", "住宿", "客房", "民宿", "如家", "汉庭", "全季", "亚朵", "希尔顿", "万豪"]),
   ("meal", ["餐饮", "餐厅", "饭店", "美团", "饿了么", "外卖", "午餐", "晚餐", "早餐"])]

/-- The `type_map` literal inside `_detect_type`. -/
def typeMap : List (String × String × String) :=
  [("taxi", ("taxi", "打车出行")), ("train", ("train", "火车票")),
   ("flight", ("flight", "机票")), ("hotel", ("hotel", "住宿")),
   ("meal", ("meal", "餐饮"))]

/-- One keyword hit: `keyword in text or keyword.lower() in text_lower`. -/
def keywordHit (text : String) (kw : String) : Bool :=
  strContains text kw || strContains (strLower text) (strLower kw)

/-- The keyword loop of `_detect_type` over the configured categories. -/
def detectGo (text : String) : List (String × List String) → String × String
  | [] => ("other", "其他")
  | (type_key, keywords) :: rest =>
    match
      if keywords.any (keywordHit text) then
        (typeMap.find? (fun p => p.1 = type_key)).map Prod.snd
      else none
    with
    | some r => r
    | none => detectGo text rest

/-- Model of `LocalAnalyzer._detect_type`: first configured category with a keyword
occurring in the text (and present in `type_map`) wins; default
`("other", "其他")`. -/
def _detect_type (text : String) : String × String :=
  detectGo text CATEGORY_KEYWORDS

/-- Greedy number token `(\d+\.?\d*)`: a digit run, an optional dot, a digit
run. Returns the token and the remaining characters. -/
def matchNumberAt (cs : List Char) : Option (List Char × List Char) :=
  let d1 := cs.takeWhile Char.isDigit
  let r1 := cs.dropWhile Char.isDigit
  if d1 = [] then none
  else
    match r1 with
    | '.' :: r2 =>
      let d2 := r2.takeWhile Char.isDigit
      some (d1 ++ '.' :: d2, r2.dropWhile Char.isDigit)
    | _ => some (d1, r1)

/-- The run `[：:]*\s*[¥￥]?\s*` between a label and its number, then the
number token. -/
def afterLabelNum (allowCurrency : Bool) (cs : List Char) : Option (List Char × List Char) :=
  let cs := cs.dropWhile (fun c => c = '：' ∨ c = ':')
  let cs := cs.dropWhile Char.isWhitespace
  let cs :=
    if allowCurrency then
      match cs with
      | c :: r => if c = '¥' ∨ c = '￥' then r.dropWhile Char.isWhitespace else cs
      | [] => cs
    else cs
  matchNumberAt cs

/-- Labels of `AMOUNT_PATTERNS[0]`, in alternation order. -/
def amountLabels1 : List (List Char) :=
  ["合计".data, "总计".data, "实付".data, "实收".data, "金额".data,
   "价税合计".data, "应付".data, "支付".data]

/-- Labels of `AMOUNT_PATTERNS[3]`. -/
def amountLabels4 : List (List Char) := ["小计".data, "总额".data]

/-- Match `(?:合计|总计|…)[：:]*\s*[¥￥]?\s*(\d+\.?\d*)` at a position:
alternatives are tried in order, and an alternative whose continuation fails
falls through to the next one. -/
def matchP1At (cs : List Char) : Option (List Char × List Char) :=
  amountLabels1.findSome? fun lbl =>
    if lbl.isPrefixOf cs then afterLabelNum true (cs.drop lbl.length) else none

/-- Match `[¥￥]\s*(\d+\.?\d*)` at a position. -/
def matchP2At (cs : List Char) : Option (List Char × List Char) :=
  match cs with
  | c :: r =>
    if c = '¥' ∨ c = '￥' then matchNumberAt (r.dropWhile Char.isWhitespace)
    else none
  | [] => none

/-- Tail `\s*元` of `AMOUNT_PATTERNS[2]`. -/
def checkYuan (cs : List Char) : Option (List Char) :=
  match cs.dropWhile Char.isWhitespace with
  | '元' :: r => some r
  | _ => none

/-- Match `(\d+\.?\d*)\s*元` at a position. Backtracking inside the greedy
number token never helps (shorter digit runs leave a digit where `元` is
required), so only the maximal token is tried. -/
def matchP3At (cs : List Char) : Option (List Char × List Char) :=
  let d1 := cs.takeWhile Char.isDigit
  let r1 := cs.dropWhile Char.isDigit
  if d1 = [] then none
  else
    match r1 with
    | '.' :: r2 =>
      let d2 := r2.takeWhile Char.isDigit
      (checkYuan (r2.dropWhile Char.isDigit)).map (fun rest => (d1 ++ '.' :: d2, rest))
    | _ => (checkYuan r1).map (fun rest => (d1, rest))

/-- Match `(?:小计|总额)[：:]*\s*(\d+\.?\d*)` at a position. -/
def matchP4At (cs : List Char) : Option (List Char × List Char) :=
  amountLabels4.findSome? fun lbl =>
    if lbl.isPrefixOf cs then afterLabelNum false (cs.drop lbl.length) else none

/-- Model of `re.findall`: scan left to right, emit the group of each match and resume
after it. Every matcher above consumes at least one character, so fuel
`length + 1` never runs out. -/
def findallGo (m : List Char → Option (List Char × List Char)) :
    ℕ → List Char → List String
  | 0, _ => []
  | _, [] => []
  | fuel + 1, c :: cs =>
    match m (c :: cs) with
    | some (g, rest) => (⟨g⟩ : String) :: findallGo m fuel rest
    | none => findallGo m fuel cs

/-- Model of `re.findall(pattern, text)` for one of the amount patterns. -/
def findall (m : List Char → Option (List Char × List Char)) (text : String) :
    List String :=
  findallGo m (text.length + 1) text.data

/-- Model of `LocalAnalyzer.AMOUNT_PATTERNS`, as position matchers, in order. -/
def AMOUNT_PATTERNS : List (List Char → Option (List Char × List Char)) :=
  [matchP1At, matchP2At, matchP3At, matchP4At]

/-- Python `float(m)` on a `\d+\.?\d*` token, as an exact rational. -/
def parseFloatTok (s : String) : ℚ :=
  match splitOnChar '.' s.data with
  | [a] => (digitsVal a : ℚ)
  | [a, b] => (digitsVal a : ℚ) + (digitsVal b : ℚ) / (10 ^ b.length)
  | _ => 0

/-- The positive amounts parsed from a pattern's matches
(`[float(m) for m in matches if float(m) > 0]`). -/
def positiveAmounts (m : List Char → Option (List Char × List Char))
    (text : String) : List ℚ :=
  ((findall m text).map parseFloatTok).filter (fun q => decide (0 < q))

/-- The pattern loop of `_extract_amount`: the first pattern that has matches
at all is inspected; it returns only when some match is positive, otherwise
the loop continues with the next pattern. `max` over a list of positives is
`foldr max 0`. -/
def extractAmountGo (text : String) :
    List (List Char → Option (List Char × List Char)) → ℚ
  | [] => 0
  | m :: ms =>
    let found := findall m text
    if found ≠ [] then
      let amounts := positiveAmounts m text
      if amounts ≠ [] then amounts.foldr max 0 else extractAmountGo text ms
    else extractAmountGo text ms

/-- Model of `LocalAnalyzer._extract_amount`. -/
def _extract_amount (text : String) : ℚ := extractAmountGo text AMOUNT_PATTERNS

end LocalAnalyzer

/-! ## Local extractor: dates, invoice number, formality, merchant -/

namespace LocalAnalyzer

/-- Generic `re.search` driver: try the position matcher at every start,
left to right. -/
def searchStr (m : List Char → Option α) : List Char → Option α
  | [] => none
  | c :: cs =>
    match m (c :: cs) with
    | some r => some r
    | none => searchStr m cs

/-- Separator class of the year: `年`, `-`, `/`. -/
def dateSepY (c : Char) : Bool := c = '年' || c = '-' || c = '/'

/-- Separator class of the month: `月`, `-`, `/`. -/
def dateSepM (c : Char) : Bool := c = '月' || c = '-' || c = '/'

/-- Model of `(\d{1,2})` and a month separator: two digits and a separator, else one digit and a
separator (the greedy-then-backtrack order of `{1,2}`). -/
def matchMonthAt (cs : List Char) : Option (String × List Char) :=
  match cs with
  | a :: b :: s :: rest =>
    if a.isDigit && b.isDigit && dateSepM s then some (⟨[a, b]⟩, rest)
    else if a.isDigit && dateSepM b then some (⟨[a]⟩, s :: rest)
    else none
  | [a, b] => if a.isDigit && dateSepM b then some (⟨[a]⟩, []) else none
  | _ => none

/-- Model of `(\d{1,2})[日号]?`: the day digits (the optional marker binds no group). -/
def matchDayAt (cs : List Char) : Option String :=
  match cs with
  | a :: b :: _ =>
    if a.isDigit && b.isDigit then some ⟨[a, b]⟩
    else if a.isDigit then some ⟨[a]⟩
    else none
  | [a] => if a.isDigit then some ⟨[a]⟩ else none
  | [] => none

/-- Model of `DATE_PATTERNS[0]`: year, month and day digit groups joined by the date
separators, with an optional day marker, at a
position; the year group is kept as the matched string (Python interpolates
it verbatim), month and day as `int`. -/
def matchDate1At (cs : List Char) : Option (String × ℕ × ℕ) :=
  match cs with
  | a :: b :: c :: d :: s :: rest =>
    if a.isDigit && b.isDigit && c.isDigit && d.isDigit && dateSepY s then
      match matchMonthAt rest with
      | some (mo, rest2) =>
        match matchDayAt rest2 with
        | some dy => some (⟨[a, b, c, d]⟩, digitsVal mo.data, digitsVal dy.data)
        | none => none
      | none => none
    else none
  | _ => none

/-- Model of `DATE_PATTERNS[1]`: `(\d{4})(\d{2})(\d{2})`, eight consecutive digits. -/
def matchDate8At (cs : List Char) : Option (String × ℕ × ℕ) :=
  match cs with
  | a :: b :: c :: d :: e :: f :: g :: h :: _ =>
    if a.isDigit && b.isDigit && c.isDigit && d.isDigit
        && e.isDigit && f.isDigit && g.isDigit && h.isDigit then
      some (⟨[a, b, c, d]⟩, digitsVal [e, f], digitsVal [g, h])
    else none
  | _ => none

/-- Python `f"{year}-{int(month):02d}-{int(day):02d}"`. -/
def fmtDate : String × ℕ × ℕ → String
  | (y, m, d) => y ++ "-" ++ pad2 m ++ "-" ++ pad2 d

/-- Model of `LocalAnalyzer._extract_date`: first pattern with a search hit wins; no
hit yields the empty string (and never an exception). -/
def _extract_date (text : String) : String :=
  match searchStr matchDate1At text.data with
  | some r => fmtDate r
  | none =>
    match searchStr matchDate8At text.data with
    | some r => fmtDate r
    | none => ""

/-- Model of `(\d+)`: a nonempty digit run. -/
def matchDigitsRun (cs : List Char) : Option (List Char) :=
  let d := cs.takeWhile Char.isDigit
  if d = [] then none else some d

/-- Model of `LABEL[：:]*\s*(\d+)` at a position (invoice patterns 0 and 2). -/
def matchInvLabelAt (lbl : List Char) (cs : List Char) : Option String :=
  if lbl.isPrefixOf cs then
    let cs := (cs.drop lbl.length).dropWhile (fun c => c = '：' ∨ c = ':')
    let cs := cs.dropWhile Char.isWhitespace
    (matchDigitsRun cs).map (fun d => (⟨d⟩ : String))
  else none

/-- Model of `No[\.:]?\s*(\d+)` at a position (case-sensitive literal `No`). -/
def matchNoAt (cs : List Char) : Option String :=
  if ['N', 'o'].isPrefixOf cs then
    let cs := cs.drop 2
    let cs :=
      match cs with
      | c :: r => if c = '.' ∨ c = ':' then r else cs
      | [] => cs
    let cs := cs.dropWhile Char.isWhitespace
    (matchDigitsRun cs).map (fun d => (⟨d⟩ : String))
  else none

/-- Model of `LocalAnalyzer._extract_invoice_number`. -/
def _extract_invoice_number (text : String) : String :=
  match searchStr (matchInvLabelAt "发票号码".data) text.data with
  | some r => r
  | none =>
    match searchStr matchNoAt text.data with
    | some r => r
    | none =>
      match searchStr (matchInvLabelAt "发票代码".data) text.data with
      | some r => r
      | none => ""

/-- Keyword set of `_is_formal_invoice`. -/
def invoiceKeywords : List String :=
  ["发票代码", "发票号码", "税额", "价税合计", "增值税", "电子发票"]

/-- Model of `LocalAnalyzer._is_formal_invoice`. -/
def _is_formal_invoice (text : String) : Bool :=
  invoiceKeywords.any (fun kw => strContains text kw)

/-- Group of `销售方[：:]*\s*([^\n]+)` after the label and colons: the greedy
`\s*` backtracks until the nonempty newline-free group can start; when the
rest is all whitespace the surviving group is the last non-newline character. -/
def merchGroup1 (cs : List Char) : Option (List Char) :=
  let run := cs.takeWhile Char.isWhitespace
  let tail := cs.dropWhile Char.isWhitespace
  match tail with
  | _ :: _ => some (tail.takeWhile (fun x => x ≠ '\n'))
  | [] =>
    match run.reverse.dropWhile (fun x => x = '\n') with
    | c :: _ => some [c]
    | [] => none

/-- Model of `销售方[：:]*\s*([^\n]+)` at a position. -/
def matchM1At (cs : List Char) : Option (List Char) :=
  if "销售方".data.isPrefixOf cs then
    merchGroup1 ((cs.drop 3).dropWhile (fun c => c = '：' ∨ c = ':'))
  else none

/-- Suffix alternation `(?:公司|店|餐厅|酒店)`, in order. -/
def merchSuffixes : List (List Char) :=
  ["公司".data, "店".data, "餐厅".data, "酒店".data]

/-- First suffix alternative matching at a position. -/
def firstSuffixAt (cs : List Char) : Option (List Char) :=
  merchSuffixes.findSome? fun sfx => if sfx.isPrefixOf cs then some sfx else none

/-- Lazy group `([^\n]+?(?:公司|店|餐厅|酒店))`: grow the newline-free content
one character at a time, checking the suffix alternation after each step. -/
def lazyContent (acc : List Char) : List Char → Option (List Char)
  | [] => none
  | c :: cs =>
    if c = '\n' then none
    else
      match firstSuffixAt cs with
      | some sfx => some (acc ++ [c] ++ sfx)
      | none => lazyContent (acc ++ [c]) cs

/-- Backtracking of the greedy `\s*` before the lazy group: try the latest
start first, then re-admit run characters one by one. -/
def m2FromStarts : List Char → List Char → Option (List Char)
  | runRev, cur =>
    match lazyContent [] cur with
    | some g => some g
    | none =>
      match runRev with
      | [] => none
      | c :: rr => m2FromStarts rr (c :: cur)

/-- Group machinery of merchant pattern 1 (`(?:名称|公司)…`) after the label. -/
def merchGroup2 (cs : List Char) : Option (List Char) :=
  let cs := cs.dropWhile (fun c => c = '：' ∨ c = ':')
  let run := cs.takeWhile Char.isWhitespace
  let tail := cs.dropWhile Char.isWhitespace
  m2FromStarts run.reverse tail

/-- Model of `(?:名称|公司)[：:]*\s*([^\n]+?(?:公司|店|餐厅|酒店))` at a position. -/
def matchM2At (cs : List Char) : Option (List Char) :=
  if "名称".data.isPrefixOf cs then
    match merchGroup2 (cs.drop 2) with
    | some g => some g
    | none => if "公司".data.isPrefixOf cs then merchGroup2 (cs.drop 2) else none
  else if "公司".data.isPrefixOf cs then merchGroup2 (cs.drop 2)
  else none

/-- Model of `LocalAnalyzer._extract_merchant`: first pattern with a search hit;
`match.group(1).strip()[:50]`; no hit yields the empty string. -/
def _extract_merchant (text : String) : String :=
  match searchStr matchM1At text.data with
  | some g => takeChars 50 ⟨trimWs g⟩
  | none =>
    match searchStr matchM2At text.data with
    | some g => takeChars 50 ⟨trimWs g⟩
    | none => ""

/-- Model of `LocalAnalyzer._create_empty_info`. -/
def _create_empty_info (file_path description : String) : InvoiceInfo :=
  { type := "other", subtype := "未识别", amount := 0, date := "",
    service_date := "", merchant := "", invoice_number := "",
    is_invoice := false, description := description, raw_text := "",
    file_path := file_path, order_number := "" }

/-- Model of `LocalAnalyzer.analyze`: every field is filled by a total sub-extraction;
local analysis reuses the extracted date for `service_date`. -/
def analyze (ocr_text file_path : String) : InvoiceInfo :=
  if trimWs ocr_text.data = [] then _create_empty_info file_path "无法识别内容"
  else
    let ts := _detect_type ocr_text
    { type := ts.1, subtype := ts.2, amount := _extract_amount ocr_text,
      date := _extract_date ocr_text, service_date := _extract_date ocr_text,
      merchant := _extract_merchant ocr_text,
      invoice_number := _extract_invoice_number ocr_text,
      is_invoice := _is_formal_invoice ocr_text,
      description := "本地识别: " ++ ts.2, raw_text := ocr_text,
      file_path := file_path, order_number := "" }

end LocalAnalyzer

/-! ## Spec-side definitions used to state the claims -/

namespace SpecSide

open FileOrganizer LocalAnalyzer

/-- Claim C3, identity signal: `+3` on equal normalized subtypes, else `+2`
on equal normalized merchants. -/
def identSignal (v i : InvoiceInfo) : ℕ :=
  if _normalize_merchant v.subtype = _normalize_merchant i.subtype then 3
  else if _normalize_merchant v.merchant = _normalize_merchant i.merchant then 2
  else 0

/-- Claim C3, date signal: `+2` on equal days, `+1` on one day apart,
`0` otherwise; an unparseable date contributes `0`. -/
def dateSignal (v i : InvoiceInfo) : ℕ :=
  match parseYmd v.get_actual_date, parseYmd (invoiceServiceOrIssue i) with
  | some a, some b =>
    if daysDiff a b = 0 then 2 else if daysDiff a b = 1 then 1 else 0
  | _, _ => 0

/-- Relative difference of two amounts bounded by `p`: the ratio
`|a − b| / max a b` is defined (positive denominator) and at most `p`. -/
def relDiffLe (a b p : ℚ) : Prop := 0 < max a b ∧ |a - b| ≤ max a b * p

instance (a b p : ℚ) : Decidable (relDiffLe a b p) := by
  unfold relDiffLe; infer_instance

/-- Claim C3, amount signal: `+3` within `1%` relative difference, `+1`
within `5%`, else `0`. -/
def amountSignal (v i : InvoiceInfo) : ℕ :=
  if relDiffLe v.amount i.amount (1 / 100) then 3
  else if relDiffLe v.amount i.amount (5 / 100) then 1
  else 0

/-- Claim C3, category signal. -/
def typeSignal (v i : InvoiceInfo) : ℕ := if v.type = i.type then 1 else 0

/-- Claim C7 as written: commit to the first pattern with any match at all,
then the maximum of its positive matches (`0` when nothing positive is left). -/
def amountClaimFirstMatching (text : String) : ℚ :=
  match
    AMOUNT_PATTERNS.findSome? fun m =>
      let found := findall m text
      if found ≠ [] then some found else none
  with
  | some found => ((found.map parseFloatTok).filter (fun q => decide (0 < q))).foldr max 0
  | none => 0

/-- Amended claim C7: commit to the first pattern with a positive match. -/
def amountFirstPositive (text : String) : ℚ :=
  match
    AMOUNT_PATTERNS.findSome? fun m =>
      let amounts := positiveAmounts m text
      if amounts ≠ [] then some (amounts.foldr max 0) else none
  with
  | some q => q
  | none => 0

/-- Parenthesis and bracket characters named by claim C9. -/
def parenChars : List Char := ['（', '）', '(', ')', '【', '】', '[', ']']

/-- Legal-entity suffixes a reading of claim C9 would strip from the end. -/
def legalSuffixes : List String := ["有限公司", "公司", "科技", "股份", "有限"]

/-- Strip one trailing legal-entity suffix, if any. -/
def stripLegalSuffix (s : String) : String :=
  match legalSuffixes.find? (fun suf => suf.data.isSuffixOf s.data) with
  | some suf => ⟨s.data.take (s.data.length - suf.data.length)⟩
  | none => s

/-- Claim C9 as written: remove parentheses, strip a legal-entity suffix,
case-fold, and alter nothing else. -/
def normalizeNameClaim (name : String) : String :=
  strLower (stripLegalSuffix ⟨name.data.filter (fun c => !parenChars.contains c)⟩)

end SpecSide

/-! ## Proof-support definitions and concrete witness records -/

namespace FileOrganizer

/-- Multiset of the invoices sitting at claimed indices of `l`. -/
def claimedM (l : List (ℕ × InvoiceInfo)) (u : Finset ℕ) : Multiset InvoiceInfo :=
  (((l.filter (fun p => decide (p.1 ∈ u))).map Prod.snd : List InvoiceInfo) : Multiset InvoiceInfo)

end FileOrganizer

/-- A concrete voucher record (a trip itinerary). -/
def sampleVoucher : InvoiceInfo :=
  { type := "taxi", subtype := "滴滴出行", amount := 0, date := "",
    service_date := "2024-01-15", merchant := "滴滴", invoice_number := "",
    is_invoice := false, description := "", raw_text := "",
    file_path := "in/v.pdf", order_number := "" }

/-- A concrete matching formal invoice. -/
def sampleInvoice : InvoiceInfo :=
  { type := "taxi", subtype := "滴滴出行", amount := 0, date := "2024-01-16",
    service_date := "2024-01-15", merchant := "滴滴", invoice_number := "123",
    is_invoice := true, description := "", raw_text := "",
    file_path := "in/i.pdf", order_number := "" }

/-- A lone formal invoice with an empty service date. -/
def sampleInvoiceNoServiceDate : InvoiceInfo :=
  { type := "meal", subtype := "", amount := 0, date := "2024-02-01",
    service_date := "", merchant := "", invoice_number := "456",
    is_invoice := true, description := "", raw_text := "",
    file_path := "in/p.pdf", order_number := "" }

/-! ## Lemmas: decimal rendering -/

/-- Digit character value, inverse of `digitToChar` below `10`. -/
def charVal (c : Char) : ℕ := c.toNat - 48

/-- Decimal decoding, a left inverse of `natDec`. -/
def strToNat (s : String) : ℕ := ofDigitsRev ((s.data.map charVal).reverse)

theorem charVal_digitToChar {d : ℕ} (h : d < 10) : charVal (digitToChar d) = d := by
  interval_cases d <;> decide

theorem digitsRevFuel_lt_ten (f : ℕ) : ∀ n, ∀ d ∈ digitsRevFuel f n, d < 10 := by
  induction f with
  | zero => intro n d hd; simp [digitsRevFuel] at hd
  | succ f ih =>
    intro n d hd
    cases n with
    | zero => simp [digitsRevFuel] at hd
    | succ n =>
      rw [digitsRevFuel] at hd
      rcases List.mem_cons.mp hd with h | h
      · omega
      · exact ih _ d h

theorem ofDigitsRev_digitsRevFuel (f : ℕ) : ∀ n, n ≤ f → ofDigitsRev (digitsRevFuel f n) = n := by
  induction f with
  | zero => intro n h; interval_cases n; rfl
  | succ f ih =>
    intro n h
    cases n with
    | zero => rfl
    | succ n =>
      have hdiv : (n + 1) / 10 ≤ f := by omega
      rw [digitsRevFuel, ofDigitsRev, ih _ hdiv, Nat.mod_add_div]

theorem map_charVal_digitToChar {l : List ℕ} (h : ∀ d ∈ l, d < 10) :
    (l.map digitToChar).map charVal = l := by
  rw [List.map_map]
  exact (List.map_congr_left fun d hd => charVal_digitToChar (h d hd)).trans l.map_id

theorem strToNat_natDec (n : ℕ) : strToNat (natDec n) = n := by
  by_cases hn : n = 0
  · subst hn; rfl
  · unfold natDec strToNat
    rw [if_neg hn]
    show ofDigitsRev (((((digitsRevFuel n n).reverse).map digitToChar).map charVal).reverse) = n
    rw [map_charVal_digitToChar (fun d hd => digitsRevFuel_lt_ten n n d (List.mem_reverse.mp hd)),
      List.reverse_reverse]
    exact ofDigitsRev_digitsRevFuel n n le_rfl

theorem natDec_inj : Function.Injective natDec :=
  Function.LeftInverse.injective strToNat_natDec

/-- Strings with equal character data are equal. -/
theorem stringDataEq {s t : String} (h : s.data = t.data) : s = t := by
  cases s; cases t; exact congrArg String.mk h

/-! ## Lemmas: collision resolver -/

namespace FileOrganizer

theorem candidate_inj (stem suffix : String) :
    Function.Injective (candidate stem suffix) := by
  intro m n h
  match m, n with
  | 0, 0 => rfl
  | 0, n + 1 =>
    exfalso
    have hl := congrArg String.length h
    simp only [candidate, String.length_append] at hl
    have : ("_" : String).length = 1 := rfl
    omega
  | m + 1, 0 =>
    exfalso
    have hl := congrArg String.length h
    simp only [candidate, String.length_append] at hl
    have : ("_" : String).length = 1 := rfl
    omega
  | m + 1, n + 1 =>
    have hd := congrArg String.data h
    simp only [candidate, String.data_append, List.append_assoc] at hd
    have h₁ := List.append_cancel_left hd
    have h₂ := List.append_cancel_left h₁
    have h₃ := List.append_cancel_right h₂
    have := natDec_inj (stringDataEq h₃)
    omega

theorem exists_free_candidate (occ : Finset String) (stem suffix : String) :
    ∃ n, n ≤ occ.card ∧ candidate stem suffix n ∉ occ := by
  by_contra hcon
  push_neg at hcon
  have hsub : (Finset.range (occ.card + 1)).image (candidate stem suffix) ⊆ occ := by
    intro x hx
    obtain ⟨n, hn, rfl⟩ := Finset.mem_image.mp hx
    have := Finset.mem_range.mp hn
    exact hcon n (by omega)
  have hcard := Finset.card_le_card hsub
  rw [Finset.card_image_of_injective _ (candidate_inj stem suffix),
    Finset.card_range] at hcard
  omega

theorem resolveLoop_spec (occ : Finset String) (stem suffix : String) :
    ∀ fuel i, (∃ j, i ≤ j ∧ j < i + fuel ∧ candidate stem suffix j ∉ occ) →
      candidate stem suffix (resolveLoop occ stem suffix fuel i) ∉ occ ∧
      i ≤ resolveLoop occ stem suffix fuel i ∧
      ∀ m, i ≤ m → m < resolveLoop occ stem suffix fuel i →
        candidate stem suffix m ∈ occ := by
  intro fuel
  induction fuel with
  | zero =>
    intro i h
    obtain ⟨j, hj1, hj2, _⟩ := h
    omega
  | succ fuel ih =>
    intro i h
    obtain ⟨j, hj1, hj2, hj3⟩ := h
    by_cases hc : candidate stem suffix i ∈ occ
    · have hne : j ≠ i := fun e => hj3 (e ▸ hc)
      have hrec := ih (i + 1) ⟨j, by omega, by omega, hj3⟩
      rw [resolveLoop, if_pos hc]
      refine ⟨hrec.1, by omega, fun m hm1 hm2 => ?_⟩
      rcases Nat.eq_or_lt_of_le hm1 with he | hlt
      · exact he ▸ hc
      · exact hrec.2.2 m hlt hm2
    · rw [resolveLoop, if_neg hc]
      exact ⟨hc, le_rfl, fun m hm1 hm2 => by omega⟩

theorem resolveIdx_spec (occ : Finset String) (stem suffix : String) :
    candidate stem suffix (resolveIdx occ stem suffix) ∉ occ ∧
    resolveIdx occ stem suffix ≤ occ.card ∧
    ∀ m < resolveIdx occ stem suffix, candidate stem suffix m ∈ occ := by
  obtain ⟨j, hj1, hj2⟩ := exists_free_candidate occ stem suffix
  have h := resolveLoop_spec occ stem suffix (occ.card + 1) 0 ⟨j, by omega, by omega, hj2⟩
  unfold resolveIdx
  refine ⟨h.1, ?_, fun m hm => h.2.2 m (by omega) hm⟩
  by_contra hgt
  push_neg at hgt
  exact hj2 (h.2.2 j (by omega) (by omega))

theorem placeK_spec (stem suffix : String) : ∀ K,
    (placeK stem suffix K).1 = (Finset.range K).image (candidate stem suffix) ∧
    (placeK stem suffix K).2 = (List.range K).map (candidate stem suffix) ∧
    ∀ k < K, resolveIdx (placeK stem suffix k).1 stem suffix = k := by
  intro K
  induction K with
  | zero => exact ⟨by simp [placeK], by simp [placeK], fun k hk => absurd hk (by omega)⟩
  | succ K ih =>
    obtain ⟨h1, h2, h3⟩ := ih
    have hcard : ((Finset.range K).image (candidate stem suffix)).card = K := by
      rw [Finset.card_image_of_injective _ (candidate_inj stem suffix), Finset.card_range]
    have hocc : ∀ m < K, candidate stem suffix m ∈ (placeK stem suffix K).1 := by
      intro m hm
      rw [h1]
      exact Finset.mem_image.mpr ⟨m, Finset.mem_range.mpr hm, rfl⟩
    have hfree : candidate stem suffix K ∉ (placeK stem suffix K).1 := by
      rw [h1]
      intro hmem
      obtain ⟨j, hj, he⟩ := Finset.mem_image.mp hmem
      have := candidate_inj stem suffix he
      rw [Finset.mem_range] at hj
      omega
    obtain ⟨r1, r2, r3⟩ := resolveIdx_spec (placeK stem suffix K).1 stem suffix
    have hidx : resolveIdx (placeK stem suffix K).1 stem suffix = K := by
      have hle : resolveIdx (placeK stem suffix K).1 stem suffix ≤ K := by
        have hc2 : (placeK stem suffix K).1.card = K := by rw [h1]; exact hcard
        rw [hc2] at r2
        exact r2
      rcases Nat.eq_or_lt_of_le hle with he | hlt
      · exact he
      · exact absurd (hocc _ hlt) r1
    have htarget : resolvedTarget (placeK stem suffix K).1 stem suffix
        = candidate stem suffix K := by
      rw [resolvedTarget, hidx]
    refine ⟨?_, ?_, ?_⟩
    · show insert (resolvedTarget (placeK stem suffix K).1 stem suffix) (placeK stem suffix K).1 = _
      rw [htarget, h1, Finset.range_succ, Finset.image_insert]
    · show (placeK stem suffix K).2 ++ [resolvedTarget (placeK stem suffix K).1 stem suffix] = _
      rw [htarget, h2, List.range_succ, List.map_append, List.map_singleton]
    · intro k hk
      rcases Nat.lt_succ_iff_lt_or_eq.mp hk with hlt | he
      · exact h3 k hlt
      · rw [he]; exact hidx

end FileOrganizer

/-! ## Lemmas: greedy selection (matching engine) -/

namespace FileOrganizer

theorem bestScoreOf_cons (v : InvoiceInfo) (p : ℕ × InvoiceInfo)
    (c : List (ℕ × InvoiceInfo)) :
    bestScoreOf v (p :: c) = max (_calculate_match_score v p.2) (bestScoreOf v c) := rfl

theorem find?_cons_eq_of_neg {α : Type} (pr : α → Bool) (a : α) (l : List α)
    (h : pr a = false) : List.find? pr (a :: l) = List.find? pr l := by
  rw [List.find?_cons, h]

theorem find?_cons_eq_of_pos {α : Type} (pr : α → Bool) (a : α) (l : List α)
    (h : pr a = true) : List.find? pr (a :: l) = some a := by
  rw [List.find?_cons, h]

/-- Characterization of the inner loop: starting from accumulator
`(best, s)`, the loop returns the earliest unclaimed invoice attaining the
maximum score over the remaining candidates whenever that maximum beats both
the accumulator and the threshold `2`, and the untouched accumulator
otherwise. -/
theorem findBestAux_eq (v : InvoiceInfo) (used : Finset ℕ) :
    ∀ (l : List (ℕ × InvoiceInfo)) (best : Option (ℕ × InvoiceInfo)) (s : ℕ),
      findBestAux v used l best s =
        if max s 1 < bestScoreOf v (l.filter (fun p => decide (p.1 ∉ used))) then
          ((l.filter (fun p => decide (p.1 ∉ used))).find?
              (fun p => _calculate_match_score v p.2
                = bestScoreOf v (l.filter (fun p => decide (p.1 ∉ used)))),
            bestScoreOf v (l.filter (fun p => decide (p.1 ∉ used))))
        else (best, s) := by
  intro l
  induction l with
  | nil =>
    intro best s
    have h0 : bestScoreOf v ([] : List (ℕ × InvoiceInfo)) = 0 := rfl
    simp [findBestAux, h0]
  | cons p l ih =>
    intro best s
    by_cases hu : p.1 ∈ used
    · have hf : (p :: l).filter (fun p => decide (p.1 ∉ used))
          = l.filter (fun p => decide (p.1 ∉ used)) := by
        simp [List.filter_cons, hu]
      rw [show findBestAux v used (p :: l) best s = findBestAux v used l best s by
            rw [findBestAux, if_pos hu],
        ih, hf]
    · have hf : (p :: l).filter (fun p => decide (p.1 ∉ used))
          = p :: l.filter (fun p => decide (p.1 ∉ used)) := by
        simp [List.filter_cons, hu]
      rw [hf]
      set sc := _calculate_match_score v p.2 with hsc
      set Ml := bestScoreOf v (l.filter (fun p => decide (p.1 ∉ used))) with hMl
      have hM : bestScoreOf v (p :: l.filter (fun p => decide (p.1 ∉ used)))
          = max sc Ml := rfl
      rw [hM]
      have hstep : findBestAux v used (p :: l) best s =
          if s < sc ∧ 2 ≤ sc then findBestAux v used l (some p) sc
          else findBestAux v used l best s := by
        rw [findBestAux, if_neg hu]
      by_cases hbr : s < sc ∧ 2 ≤ sc
      · rw [hstep, if_pos hbr, ih]
        have hcond : max s 1 < max sc Ml := by omega
        rw [if_pos hcond]
        by_cases hml : max sc 1 < Ml
        · rw [if_pos hml]
          have hMeq : max sc Ml = Ml := by omega
          rw [hMeq]
          rw [find?_cons_eq_of_neg (fun q => decide (_calculate_match_score v q.2 = Ml)) p _
            (by simp only [decide_eq_false_iff_not]; omega)]
        · rw [if_neg hml]
          have hMeq : max sc Ml = sc := by omega
          rw [hMeq]
          rw [find?_cons_eq_of_pos (fun q => decide (_calculate_match_score v q.2 = sc)) p _
            (by simp only [decide_eq_true_eq])]
      · rw [hstep, if_neg hbr, ih]
        have hsc1 : sc ≤ max s 1 := by omega
        by_cases hml : max s 1 < Ml
        · rw [if_pos hml]
          have hcond : max s 1 < max sc Ml := by omega
          rw [if_pos hcond]
          have hMeq : max sc Ml = Ml := by omega
          rw [hMeq]
          rw [find?_cons_eq_of_neg (fun q => decide (_calculate_match_score v q.2 = Ml)) p _
            (by simp only [decide_eq_false_iff_not]; omega)]
        · rw [if_neg hml]
          have hcond : ¬(max s 1 < max sc Ml) := by omega
          rw [if_neg hcond]

end FileOrganizer

namespace FileOrganizer

theorem findBest_eq_selectInvoice (v : InvoiceInfo) (used : Finset ℕ)
    (l : List (ℕ × InvoiceInfo)) :
    (findBest v used l).1 = selectInvoice v used l := by
  rw [findBest, findBestAux_eq, selectInvoice]
  by_cases h : 2 ≤ bestScoreOf v (l.filter (fun p => decide (p.1 ∉ used)))
  · rw [if_pos (show max 0 1 < _ by omega), if_pos h]
  · rw [if_neg (show ¬(max 0 1 < _) by omega), if_neg h]

theorem pairLoop_eq_specPairLoop (idxInv : List (ℕ × InvoiceInfo)) :
    ∀ (vs : List InvoiceInfo) (used : Finset ℕ),
      pairLoop idxInv vs used = specPairLoop idxInv vs used := by
  intro vs
  induction vs with
  | nil => intro used; rfl
  | cons v vs ih =>
    intro used
    rw [pairLoop, specPairLoop, findBest_eq_selectInvoice]
    cases selectInvoice v used idxInv with
    | none => dsimp only; rw [ih]
    | some p => dsimp only; rw [ih]

/-- If the scan selects an invoice, that invoice is an unclaimed member of
the candidate list and its score is the (≥ 2) maximum. -/
theorem findBest_some_mem {v : InvoiceInfo} {used : Finset ℕ}
    {l : List (ℕ × InvoiceInfo)} {p : ℕ × InvoiceInfo}
    (h : (findBest v used l).1 = some p) :
    p ∈ l ∧ p.1 ∉ used := by
  rw [findBest_eq_selectInvoice, selectInvoice] at h
  by_cases hM : 2 ≤ bestScoreOf v (l.filter (fun p => decide (p.1 ∉ used)))
  · simp only [if_pos hM] at h
    have hmem := List.mem_of_find?_eq_some h
    have := List.mem_filter.mp hmem
    exact ⟨this.1, by simpa using this.2⟩
  · simp only [if_neg hM] at h
    exact absurd h (by simp)

end FileOrganizer

/-! ## Lemmas: partition property of the matching engine -/

theorem withIdx_ge {α : Type} : ∀ (l : List α) (n : ℕ), ∀ p ∈ withIdx n l, n ≤ p.1 := by
  intro l
  induction l with
  | nil => intro n p hp; simp [withIdx] at hp
  | cons a as ih =>
    intro n p hp
    rw [withIdx] at hp
    rcases List.mem_cons.mp hp with h | h
    · rw [h]
    · exact le_of_lt (lt_of_lt_of_le (by omega) (ih (n + 1) p h))

theorem withIdx_keys_nodup {α : Type} :
    ∀ (l : List α) (n : ℕ), ((withIdx n l).map Prod.fst).Nodup := by
  intro l
  induction l with
  | nil => intro n; simp [withIdx]
  | cons a as ih =>
    intro n
    rw [withIdx, List.map_cons, List.nodup_cons]
    refine ⟨?_, ih (n + 1)⟩
    intro hmem
    obtain ⟨p, hp, he⟩ := List.mem_map.mp hmem
    have := withIdx_ge as (n + 1) p hp
    omega

theorem withIdx_map_snd {α : Type} :
    ∀ (l : List α) (n : ℕ), (withIdx n l).map Prod.snd = l := by
  intro l
  induction l with
  | nil => intro n; rfl
  | cons a as ih => intro n; rw [withIdx, List.map_cons, ih]

theorem withIdx_mem_snd {α : Type} {l : List α} {n : ℕ} {p : ℕ × α}
    (h : p ∈ withIdx n l) : p.2 ∈ l := by
  have : p.2 ∈ (withIdx n l).map Prod.snd := List.mem_map.mpr ⟨p, h, rfl⟩
  rwa [withIdx_map_snd] at this

namespace FileOrganizer

theorem claimedM_empty (l : List (ℕ × InvoiceInfo)) : claimedM l ∅ = 0 := by
  unfold claimedM
  simp

theorem claimedM_cons (q : ℕ × InvoiceInfo) (t : List (ℕ × InvoiceInfo))
    (u : Finset ℕ) :
    claimedM (q :: t) u =
      if q.1 ∈ u then q.2 ::ₘ claimedM t u else claimedM t u := by
  unfold claimedM
  rw [List.filter_cons]
  by_cases h : q.1 ∈ u
  · simp [h, Multiset.cons_coe]
  · simp [h]

theorem claimedM_congr :
    ∀ {t : List (ℕ × InvoiceInfo)} {x y : Finset ℕ},
      (∀ p ∈ t, (p.1 ∈ x ↔ p.1 ∈ y)) → claimedM t x = claimedM t y := by
  intro t x y h
  unfold claimedM
  have he : t.filter (fun p => decide (p.1 ∈ x)) = t.filter (fun p => decide (p.1 ∈ y)) :=
    List.filter_congr (fun p hp => by simp [h p hp])
  rw [he]

theorem claimedM_insert :
    ∀ {l : List (ℕ × InvoiceInfo)}, ((l.map Prod.fst).Nodup) →
      ∀ {i : ℕ} {a : InvoiceInfo} {u : Finset ℕ}, (i, a) ∈ l → i ∉ u →
        claimedM l (insert i u) = a ::ₘ claimedM l u := by
  intro l
  induction l with
  | nil => intro _ i a u hmem; simp at hmem
  | cons q t ih =>
    intro hnd i a u hmem hni
    rw [List.map_cons, List.nodup_cons] at hnd
    obtain ⟨hq, hndt⟩ := hnd
    rw [claimedM_cons, claimedM_cons]
    rcases List.mem_cons.mp hmem with he | ht
    · have hqi : q.1 = i := by rw [← he]
      have hqa : q.2 = a := by rw [← he]
      have hkey : ∀ p ∈ t, ¬(p.1 = i) := by
        intro p hp he2
        exact hq (List.mem_map.mpr ⟨p, hp, by rw [he2, hqi]⟩)
      rw [if_pos (by simp [hqi]), if_neg (by rw [hqi]; exact hni), hqa]
      rw [show claimedM t (insert i u) = claimedM t u from
        claimedM_congr (fun p hp => by simp [Finset.mem_insert, hkey p hp])]
    · have hqi : ¬(q.1 = i) := by
        intro he2
        exact hq (List.mem_map.mpr ⟨(i, a), ht, by rw [he2]⟩)
      have hrec := ih hndt ht hni
      by_cases hqu : q.1 ∈ u
      · rw [if_pos (Finset.mem_insert.mpr (Or.inr hqu)), if_pos hqu, hrec]
        exact Multiset.cons_swap _ _ _
      · rw [if_neg (fun hc => (Finset.mem_insert.mp hc).elim hqi hqu), if_neg hqu]
        exact hrec

theorem pairLoop_perm (idxInv : List (ℕ × InvoiceInfo))
    (hnd : (idxInv.map Prod.fst).Nodup) :
    ∀ (vs : List InvoiceInfo) (used : Finset ℕ),
      (((pairLoop idxInv vs used).1.flatten : List InvoiceInfo) : Multiset InvoiceInfo)
          + claimedM idxInv used
        = (vs : Multiset InvoiceInfo) + claimedM idxInv (pairLoop idxInv vs used).2 := by
  intro vs
  induction vs with
  | nil => intro used; simp [pairLoop]
  | cons v vs ih =>
    intro used
    rw [pairLoop]
    cases hsel : (findBest v used idxInv).1 with
    | none =>
      dsimp only
      rw [List.flatten_cons, List.singleton_append, ← Multiset.cons_coe,
        ← Multiset.cons_coe, Multiset.cons_add, Multiset.cons_add]
      rw [ih used]
    | some p =>
      obtain ⟨hmem, hni⟩ := findBest_some_mem hsel
      have hmem2 : (p.1, p.2) ∈ idxInv := by rwa [Prod.mk.eta]
      have hins : claimedM idxInv (insert p.1 used) = p.2 ::ₘ claimedM idxInv used :=
        claimedM_insert hnd hmem2 hni
      dsimp only
      rw [List.flatten_cons, List.cons_append, List.singleton_append,
        ← Multiset.cons_coe, ← Multiset.cons_coe, ← Multiset.cons_coe,
        Multiset.cons_add, Multiset.cons_add, Multiset.cons_add]
      congr 1
      rw [← Multiset.add_cons, ← hins]
      exact ih (insert p.1 used)

end FileOrganizer

theorem flatten_map_singleton {α : Type} :
    ∀ l : List (ℕ × α), (l.map (fun p => [p.2])).flatten = l.map Prod.snd := by
  intro l
  induction l with
  | nil => rfl
  | cons q t ih => simp [ih]

namespace FileOrganizer

theorem claimed_unclaimed_partition (idx : List (ℕ × InvoiceInfo)) (u : Finset ℕ) :
    claimedM idx u + ↑((idx.filter (fun p => decide (p.1 ∉ u))).map Prod.snd)
      = (↑(idx.map Prod.snd) : Multiset InvoiceInfo) := by
  have hperm := List.filter_append_perm (fun p : ℕ × InvoiceInfo => decide (p.1 ∈ u)) idx
  have hneg : idx.filter (fun a => !decide (a.1 ∈ u))
      = idx.filter (fun p => decide (p.1 ∉ u)) := by
    refine List.filter_congr ?_
    intro p _
    simp [decide_not]
  rw [hneg] at hperm
  have hmap := hperm.map Prod.snd
  rw [List.map_append] at hmap
  have := Multiset.coe_eq_coe.mpr hmap
  rw [← Multiset.coe_add] at this
  exact this

theorem pair_flatten_eq_coe (infos : List InvoiceInfo) :
    ((( _pair_vouchers_and_invoices infos).flatten : List InvoiceInfo) : Multiset InvoiceInfo)
      = (infos : Multiset InvoiceInfo) := by
  have hnd := withIdx_keys_nodup (infos.filter (fun i => i.is_invoice)) 0
  have hloop := pairLoop_perm (withIdx 0 (infos.filter (fun i => i.is_invoice))) hnd
      (infos.filter (fun i => !i.is_invoice)) ∅
  rw [claimedM_empty, add_zero] at hloop
  show (↑(((pairLoop (withIdx 0 (infos.filter (fun i => i.is_invoice)))
      (infos.filter (fun i => !i.is_invoice)) ∅).1
      ++ ((withIdx 0 (infos.filter (fun i => i.is_invoice))).filter
            (fun p => decide (p.1 ∉ (pairLoop (withIdx 0 (infos.filter (fun i => i.is_invoice)))
              (infos.filter (fun i => !i.is_invoice)) ∅).2))).map (fun p => [p.2])).flatten)
        : Multiset InvoiceInfo)
    = ↑infos
  rw [List.flatten_append, ← Multiset.coe_add, hloop, flatten_map_singleton, add_assoc,
    claimed_unclaimed_partition, withIdx_map_snd]
  have hpart := List.filter_append_perm (fun i : InvoiceInfo => i.is_invoice) infos
  have : (↑(infos.filter (fun i => i.is_invoice) ++ infos.filter (fun i => !i.is_invoice))
      : Multiset InvoiceInfo) = ↑infos := Multiset.coe_eq_coe.mpr hpart
  rw [← Multiset.coe_add] at this
  rw [add_comm]
  exact this

theorem pair_flatten_perm (infos : List InvoiceInfo) :
    (_pair_vouchers_and_invoices infos).flatten.Perm infos :=
  Multiset.coe_eq_coe.mp (pair_flatten_eq_coe infos)

end FileOrganizer

/-! ## Lemmas: group shape -/

namespace FileOrganizer

theorem pairLoop_shape (idxInv : List (ℕ × InvoiceInfo))
    (hinv : ∀ p ∈ idxInv, p.2.is_invoice = true) :
    ∀ (vs : List InvoiceInfo), (∀ v ∈ vs, v.is_invoice = false) →
      ∀ (used : Finset ℕ), ∀ g ∈ (pairLoop idxInv vs used).1,
        (∃ r, g = [r]) ∨
        ∃ v i, g = [v, i] ∧ v.is_invoice = false ∧ i.is_invoice = true := by
  intro vs
  induction vs with
  | nil => intro _ used g hg; simp [pairLoop] at hg
  | cons v vs ih =>
    intro hv used g hg
    rw [pairLoop] at hg
    cases hsel : (findBest v used idxInv).1 with
    | none =>
      rw [hsel] at hg
      dsimp only at hg
      rcases List.mem_cons.mp hg with he | ht
      · exact Or.inl ⟨v, he⟩
      · exact ih (fun x hx => hv x (List.mem_cons_of_mem v hx)) used g ht
    | some p =>
      rw [hsel] at hg
      dsimp only at hg
      rcases List.mem_cons.mp hg with he | ht
      · refine Or.inr ⟨v, p.2, he, hv v (List.mem_cons_self v vs), ?_⟩
        exact hinv p (findBest_some_mem hsel).1
      · exact ih (fun x hx => hv x (List.mem_cons_of_mem v hx)) (insert p.1 used) g ht

theorem pair_shape (infos : List InvoiceInfo) :
    ∀ g ∈ _pair_vouchers_and_invoices infos,
      (∃ r, g = [r]) ∨
      ∃ v i, g = [v, i] ∧ v.is_invoice = false ∧ i.is_invoice = true := by
  intro g hg
  have hg2 : g ∈ (pairLoop (withIdx 0 (infos.filter (fun i => i.is_invoice)))
        (infos.filter (fun i => !i.is_invoice)) ∅).1
      ∨ g ∈ ((withIdx 0 (infos.filter (fun i => i.is_invoice))).filter
          (fun p => decide (p.1 ∉ (pairLoop (withIdx 0 (infos.filter (fun i => i.is_invoice)))
            (infos.filter (fun i => !i.is_invoice)) ∅).2))).map (fun p => [p.2]) :=
    List.mem_append.mp hg
  rcases hg2 with hl | hs
  · refine pairLoop_shape _ ?_ _ ?_ _ g hl
    · intro p hp
      have := withIdx_mem_snd hp
      exact (List.mem_filter.mp this).2
    · intro x hx
      have := (List.mem_filter.mp hx).2
      simpa using this
  · obtain ⟨p, _, he⟩ := List.mem_map.mp hs
    exact Or.inl ⟨p.2, he.symm⟩

end FileOrganizer

namespace FileOrganizer

theorem joinUnderscore_cons (a : String) (b : String) (ps : List String) :
    joinUnderscore (a :: b :: ps) = a ++ "_" ++ joinUnderscore (b :: ps) := rfl

/-- Head shape of a partially built parts list: first element `pad2 idx`. -/
def HeadShape (idx : ℕ) (l : List String) : Prop :=
  ∃ r, l = pad2 idx :: r

/-- Shape carried through the parts-building steps: head `pad2 idx`, nonempty
tail. -/
def PartsShape (idx : ℕ) (l : List String) : Prop :=
  ∃ r, l = pad2 idx :: r ∧ r ≠ []

theorem headShape_ite {idx : ℕ} {l : List String} (h : HeadShape idx l)
    (c : Prop) [Decidable c] (x : String) :
    HeadShape idx (if c then l ++ [x] else l) := by
  obtain ⟨r, hl⟩ := h
  by_cases hc : c
  · rw [if_pos hc, hl, List.cons_append]; exact ⟨r ++ [x], rfl⟩
  · rw [if_neg hc]; exact ⟨r, hl⟩

theorem headShape_seal {idx : ℕ} {l : List String} (h : HeadShape idx l)
    (x : String) : PartsShape idx (l ++ [x]) := by
  obtain ⟨r, hl⟩ := h
  exact ⟨r ++ [x], by rw [hl, List.cons_append], by simp⟩

theorem partsShape_append {idx : ℕ} {l : List String} (h : PartsShape idx l)
    (x : String) : PartsShape idx (l ++ [x]) := by
  obtain ⟨r, hl, _⟩ := h
  exact ⟨r ++ [x], by rw [hl, List.cons_append], by simp⟩

theorem partsShape_ite {idx : ℕ} {l : List String} (h : PartsShape idx l)
    (c : Prop) [Decidable c] (x : String) :
    PartsShape idx (if c then l ++ [x] else l) := by
  by_cases hc : c
  · rw [if_pos hc]; exact partsShape_append h x
  · rw [if_neg hc]; exact h

theorem joinUnderscore_shape {idx : ℕ} {l : List String} (h : PartsShape idx l)
    (sfx : String) :
    ∃ t, (if l ≠ [] then joinUnderscore l else "未知文件") ++ sfx
      = pad2 idx ++ "_" ++ t := by
  obtain ⟨r, hl, hr⟩ := h
  cases r with
  | nil => exact absurd rfl hr
  | cons b t =>
    rw [hl, if_pos (by simp), joinUnderscore_cons, String.append_assoc,
      String.append_assoc]
    exact ⟨joinUnderscore (b :: t) ++ sfx, by rw [String.append_assoc]⟩

/-- In a two-member group the generated file name of the member at 1-based
index `idx` starts with the zero-padded index and an underscore. -/
theorem generate_filename_prefix (info : InvoiceInfo) (idx : ℕ) (d : String) :
    ∃ t, _generate_filename info idx 2 d = pad2 idx ++ "_" ++ t := by
  unfold _generate_filename
  dsimp only
  rw [if_pos (by omega : (2 : ℕ) > 1), List.nil_append]
  apply joinUnderscore_shape
  by_cases hd : info.description ≠ ""
  · rw [if_pos hd]
    apply partsShape_ite
    apply partsShape_ite
    apply partsShape_ite
    apply headShape_seal
    apply headShape_ite
    exact ⟨[], rfl⟩
  · rw [if_neg hd]
    apply partsShape_ite
    apply partsShape_ite
    apply headShape_seal
    apply headShape_ite
    exact ⟨[], rfl⟩

end FileOrganizer

/-! ## Claim theorems -/

/-- C1: for every input batch of Records, the Matching Engine's output is a
partition of the batch — the concatenation of the output groups is a
permutation of the input (so every Record appears in exactly one group, none
omitted or duplicated), and the group sizes sum to the batch size. -/
theorem C1_matching_partition (infos : List InvoiceInfo) :
    (FileOrganizer._pair_vouchers_and_invoices infos).flatten.Perm infos ∧
    ((FileOrganizer._pair_vouchers_and_invoices infos).map List.length).sum
      = infos.length := by
  refine ⟨FileOrganizer.pair_flatten_perm infos, ?_⟩
  rw [← List.length_flatten]
  exact (FileOrganizer.pair_flatten_perm infos).length_eq

/-- C2: the Matching Engine processes vouchers in input order; each voucher
scores every invoice not claimed earlier and selects the earliest-indexed
invoice attaining the maximum score, provided that maximum is at least 2;
claimed invoices are removed from later consideration; an unmatched voucher
becomes a singleton group and every never-claimed invoice becomes its own
singleton group at the end. The greedy implementation coincides with that
description (`specPairing`, written from the claim's sentence). -/
theorem C2_greedy_selection (infos : List InvoiceInfo) :
    FileOrganizer._pair_vouchers_and_invoices infos
      = FileOrganizer.specPairing infos := by
  unfold FileOrganizer._pair_vouchers_and_invoices FileOrganizer.specPairing
  dsimp only
  rw [FileOrganizer.pairLoop_eq_specPairLoop]

/-- C6: every group emitted by the Matching Engine has at most one voucher
and at most one formal invoice, hence one or two members; a two-member group
is a voucher paired with an invoice. -/
theorem C6_group_invariant (infos : List InvoiceInfo) :
    ∀ g ∈ FileOrganizer._pair_vouchers_and_invoices infos,
      g.countP (fun r => r.is_invoice) ≤ 1 ∧
      g.countP (fun r => !r.is_invoice) ≤ 1 ∧
      (g.length = 1 ∨ g.length = 2) ∧
      (g.length = 2 →
        ∃ v i, g = [v, i] ∧ v.is_invoice = false ∧ i.is_invoice = true) := by
  intro g hg
  rcases FileOrganizer.pair_shape infos g hg with ⟨r, rfl⟩ | ⟨v, i, rfl, hv, hi⟩
  · refine ⟨?_, ?_, Or.inl rfl, fun h => by simp at h⟩ <;>
      · rw [List.countP_cons, List.countP_nil]
        split <;> omega
  · refine ⟨?_, ?_, Or.inr rfl, fun _ => ⟨v, i, rfl, hv, hi⟩⟩ <;>
      simp [List.countP_cons, hv, hi]

/-- Witness for C6 at a concrete matched pair. -/
theorem C6_group_invariant_witness :
    ([sampleVoucher, sampleInvoice] : List InvoiceInfo).countP
        (fun r => r.is_invoice) ≤ 1 ∧
    ([sampleVoucher, sampleInvoice] : List InvoiceInfo).countP
        (fun r => !r.is_invoice) ≤ 1 ∧
    (([sampleVoucher, sampleInvoice] : List InvoiceInfo).length = 1 ∨
      ([sampleVoucher, sampleInvoice] : List InvoiceInfo).length = 2) ∧
    (([sampleVoucher, sampleInvoice] : List InvoiceInfo).length = 2 →
      ∃ v i, ([sampleVoucher, sampleInvoice] : List InvoiceInfo) = [v, i] ∧
        v.is_invoice = false ∧ i.is_invoice = true) :=
  C6_group_invariant [sampleVoucher, sampleInvoice]
    [sampleVoucher, sampleInvoice] (by decide)

/-- C10: in every two-member group the voucher comes first and the invoice
second, and the per-file renaming of `organize` gives the voucher's file the
index prefix `01` and the invoice's file the prefix `02`. -/
theorem C10_pair_order_and_index (infos : List InvoiceInfo) :
    ∀ g ∈ FileOrganizer._pair_vouchers_and_invoices infos, g.length = 2 →
      ∃ v i, g = [v, i] ∧ v.is_invoice = false ∧ i.is_invoice = true ∧
        ∃ f1 f2, FileOrganizer.organizeGroupFiles g = [f1, f2] ∧
          (∃ t1, f1 = "01" ++ "_" ++ t1) ∧ (∃ t2, f2 = "02" ++ "_" ++ t2) := by
  intro g hg hlen
  rcases FileOrganizer.pair_shape infos g hg with ⟨r, rfl⟩ | ⟨v, i, rfl, hv, hi⟩
  · simp at hlen
  · refine ⟨v, i, rfl, hv, hi, ?_⟩
    obtain ⟨t1, h1⟩ := FileOrganizer.generate_filename_prefix v 1
      (FileOrganizer.groupDate [v, i])
    obtain ⟨t2, h2⟩ := FileOrganizer.generate_filename_prefix i 2
      (FileOrganizer.groupDate [v, i])
    refine ⟨_, _, rfl, ⟨t1, ?_⟩, ⟨t2, ?_⟩⟩
    · rw [show (pad2 1 : String) = "01" from by decide] at h1
      exact h1
    · rw [show (pad2 2 : String) = "02" from by decide] at h2
      exact h2

/-- Witness for C10 at a concrete matched pair. -/
theorem C10_pair_order_and_index_witness :
    ∃ v i, ([sampleVoucher, sampleInvoice] : List InvoiceInfo) = [v, i] ∧
      v.is_invoice = false ∧ i.is_invoice = true ∧
      ∃ f1 f2, FileOrganizer.organizeGroupFiles [sampleVoucher, sampleInvoice]
          = [f1, f2] ∧
        (∃ t1, f1 = "01" ++ "_" ++ t1) ∧ (∃ t2, f2 = "02" ++ "_" ++ t2) :=
  C10_pair_order_and_index [sampleVoucher, sampleInvoice]
    [sampleVoucher, sampleInvoice] (by decide) (by decide)

/-! ## Lemmas: score signal characterizations (claim C3) -/

namespace FileOrganizer

theorem parseYmd_empty : parseYmd "" = none := rfl

theorem dateScoreSrc_eq (v i : InvoiceInfo) :
    dateScoreSrc v i = SpecSide.dateSignal v i := by
  unfold dateScoreSrc SpecSide.dateSignal
  dsimp only
  by_cases h1 : v.get_actual_date ≠ ""
  · by_cases h2 : invoiceServiceOrIssue i ≠ ""
    · rw [if_pos ⟨h1, h2⟩]
      cases parseYmd v.get_actual_date with
      | none => cases parseYmd (invoiceServiceOrIssue i) <;> rfl
      | some a =>
        cases parseYmd (invoiceServiceOrIssue i) with
        | none => rfl
        | some b =>
          dsimp only
          split_ifs <;> omega
    · push_neg at h2
      rw [if_neg (by intro hc; exact absurd hc.2 (by simp [h2]))]
      rw [h2, parseYmd_empty]
      cases parseYmd v.get_actual_date <;> rfl
  · push_neg at h1
    rw [if_neg (by intro hc; exact absurd hc.1 (by simp [h1]))]
    rw [h1, parseYmd_empty]

theorem amountScoreSrc_eq (v i : InvoiceInfo) :
    amountScoreSrc v i = SpecSide.amountSignal v i := by
  unfold amountScoreSrc SpecSide.amountSignal
  dsimp only
  by_cases hpos : 0 < v.amount ∧ 0 < i.amount
  · have hm : 0 < max v.amount i.amount :=
      lt_of_lt_of_le hpos.1 (le_max_left _ _)
    rw [if_pos hpos]
    simp only [SpecSide.relDiffLe, hm, true_and]
  · rw [if_neg hpos]
    by_cases hmax : 0 < max v.amount i.amount
    · have key : max v.amount i.amount * (5 / 100) < |v.amount - i.amount| := by
        rcases not_and_or.mp hpos with hv | hi
        · push_neg at hv
          have hip : 0 < i.amount := by
            rcases le_or_lt i.amount 0 with h | h
            · have := max_le hv h
              linarith
            · exact h
          have hmx : max v.amount i.amount = i.amount :=
            max_eq_right (le_trans hv (le_of_lt hip))
          have habs : |v.amount - i.amount| = i.amount - v.amount := by
            rw [abs_sub_comm]
            exact abs_of_nonneg (by linarith)
          rw [hmx, habs]
          linarith
        · push_neg at hi
          have hvp : 0 < v.amount := by
            rcases le_or_lt v.amount 0 with h | h
            · have := max_le h hi
              linarith
            · exact h
          have hmx : max v.amount i.amount = v.amount :=
            max_eq_left (le_trans hi (le_of_lt hvp))
          have habs : |v.amount - i.amount| = v.amount - i.amount :=
            abs_of_nonneg (by linarith)
          rw [hmx, habs]
          linarith
      have h5 : ¬SpecSide.relDiffLe v.amount i.amount (5 / 100) := by
        intro hc
        exact absurd hc.2 (not_le.mpr key)
      have h1 : ¬SpecSide.relDiffLe v.amount i.amount (1 / 100) := by
        intro hc
        refine absurd hc.2 (not_le.mpr (lt_of_le_of_lt ?_ key))
        have : (1 : ℚ) / 100 ≤ 5 / 100 := by norm_num
        exact le_trans (le_of_eq rfl) (by nlinarith [hc.1])
      rw [if_neg h1, if_neg h5]
    · have h1 : ¬SpecSide.relDiffLe v.amount i.amount (1 / 100) :=
        fun hc => hmax hc.1
      have h5 : ¬SpecSide.relDiffLe v.amount i.amount (5 / 100) :=
        fun hc => hmax hc.1
      rw [if_neg h1, if_neg h5]

theorem identScoreSrc_le (v i : InvoiceInfo) : identScoreSrc v i ≤ 3 := by
  unfold identScoreSrc
  split_ifs <;> omega

theorem dateScoreSrc_le (v i : InvoiceInfo) : dateScoreSrc v i ≤ 2 := by
  unfold dateScoreSrc
  dsimp only
  split_ifs with h
  · cases parseYmd v.get_actual_date with
    | none => cases parseYmd (invoiceServiceOrIssue i) <;> simp
    | some a =>
      cases parseYmd (invoiceServiceOrIssue i) with
      | none => simp
      | some b =>
        dsimp only
        split_ifs <;> omega
  · omega

theorem amountScoreSrc_le (v i : InvoiceInfo) : amountScoreSrc v i ≤ 3 := by
  unfold amountScoreSrc
  dsimp only
  split_ifs <;> omega

theorem typeScoreSrc_le (v i : InvoiceInfo) : typeScoreSrc v i ≤ 1 := by
  unfold typeScoreSrc
  split_ifs <;> omega

end FileOrganizer

/-- C3: the match score is the integer sum of the four independent signals —
identity (subtype `+3`, else merchant `+2`), date proximity (`+2` / `+1`,
`0` for unparseable dates), relative amount difference (`≤ 1%` `+3`,
`≤ 5%` `+1`), category-tag equality (`+1`) — and it never exceeds `9`. -/
theorem C3_score_function (v i : InvoiceInfo) :
    FileOrganizer._calculate_match_score v i
      = SpecSide.identSignal v i + SpecSide.dateSignal v i
        + SpecSide.amountSignal v i + SpecSide.typeSignal v i ∧
    FileOrganizer._calculate_match_score v i ≤ 9 := by
  constructor
  · rw [show FileOrganizer._calculate_match_score v i
        = FileOrganizer.identScoreSrc v i + FileOrganizer.dateScoreSrc v i
          + FileOrganizer.amountScoreSrc v i + FileOrganizer.typeScoreSrc v i from rfl,
      FileOrganizer.dateScoreSrc_eq, FileOrganizer.amountScoreSrc_eq]
    rfl
  · have h1 := FileOrganizer.identScoreSrc_le v i
    have h2 := FileOrganizer.dateScoreSrc_le v i
    have h3 := FileOrganizer.amountScoreSrc_le v i
    have h4 := FileOrganizer.typeScoreSrc_le v i
    rw [show FileOrganizer._calculate_match_score v i
        = FileOrganizer.identScoreSrc v i + FileOrganizer.dateScoreSrc v i
          + FileOrganizer.amountScoreSrc v i + FileOrganizer.typeScoreSrc v i from rfl]
    omega

/-- Configured bucket names: any lookup lands in the value set. -/
theorem categoriesGet_mem (key : String) :
    FileOrganizer.categoriesGet key "其他"
      ∈ ["打车票", "火车飞机票", "住宿费", "餐费", "其他"] := by
  rw [FileOrganizer.categoriesGet]
  cases hf : FileOrganizer.INVOICE_CATEGORIES.find? (fun p => p.1 = key) with
  | none => simp
  | some p =>
    have hmem := List.mem_of_find?_eq_some hf
    fin_cases hmem <;> simp

/-- C4: a singleton group holding one formal invoice with an empty service
date is routed to the pending bucket whatever its category tag; with a
nonempty service date it is never routed there and receives one of the normal
category buckets. -/
theorem C4_pending_rule (info : InvoiceInfo) (hinv : info.is_invoice = true) :
    (info.service_date = "" →
      FileOrganizer.bucketFor [info] = FileOrganizer.PENDING_CATEGORY) ∧
    (info.service_date ≠ "" →
      FileOrganizer.bucketFor [info] ≠ FileOrganizer.PENDING_CATEGORY ∧
      FileOrganizer.bucketFor [info]
        ∈ ["打车票", "火车飞机票", "住宿费", "餐费", "其他"]) := by
  constructor
  · intro hsd
    rw [FileOrganizer.bucketFor, if_pos]
    rw [FileOrganizer.needsConfirmation]
    simp [hinv, hsd]
  · intro hsd
    have hnc : FileOrganizer.needsConfirmation [info] = false := by
      rw [FileOrganizer.needsConfirmation]
      simp [hinv, hsd]
    rw [FileOrganizer.bucketFor, if_neg (by simp [hnc])]
    refine ⟨?_, categoriesGet_mem _⟩
    have hmem := categoriesGet_mem (FileOrganizer._get_category [info])
    intro hc
    rw [hc] at hmem
    exact absurd hmem (by decide)

/-- Witness for C4: a dated and an undated concrete lone invoice. -/
theorem C4_pending_rule_witness :
    FileOrganizer.bucketFor [sampleInvoiceNoServiceDate]
        = FileOrganizer.PENDING_CATEGORY ∧
    (FileOrganizer.bucketFor [sampleInvoice] ≠ FileOrganizer.PENDING_CATEGORY ∧
      FileOrganizer.bucketFor [sampleInvoice]
        ∈ ["打车票", "火车飞机票", "住宿费", "餐费", "其他"]) :=
  ⟨(C4_pending_rule sampleInvoiceNoServiceDate (by decide)).1 (by decide),
    (C4_pending_rule sampleInvoice (by decide)).2 (by decide)⟩

/-- C5: the collision resolver of `_move_file` appends `_N` (N = 1, 2, …) to
the stem until the path is free: the returned path is unoccupied, it is the
least-indexed free candidate (all earlier candidates are occupied, so each
increment strictly changed the candidate), and the search needs at most
`card + 1` probes. Placing `K` records that naively map to the same
`stem ++ suffix` into an empty directory yields `K` pairwise-distinct paths
(the `K` first candidates, in order), the `k`-th placement resolving at index
`k` — i.e. within `k ≤ K` attempts. -/
theorem C5_collision_resolver (stem suffix : String) :
    (∀ occ : Finset String,
      FileOrganizer.resolvedTarget occ stem suffix ∉ occ ∧
      FileOrganizer.resolvedTarget occ stem suffix
        = FileOrganizer.candidate stem suffix (FileOrganizer.resolveIdx occ stem suffix) ∧
      FileOrganizer.resolveIdx occ stem suffix ≤ occ.card ∧
      ∀ m < FileOrganizer.resolveIdx occ stem suffix,
        FileOrganizer.candidate stem suffix m ∈ occ) ∧
    (∀ K : ℕ,
      (FileOrganizer.placeK stem suffix K).2.Nodup ∧
      (FileOrganizer.placeK stem suffix K).2.length = K ∧
      (FileOrganizer.placeK stem suffix K).2
        = (List.range K).map (FileOrganizer.candidate stem suffix) ∧
      ∀ k < K,
        FileOrganizer.resolveIdx (FileOrganizer.placeK stem suffix k).1 stem suffix
          = k) := by
  constructor
  · intro occ
    obtain ⟨h1, h2, h3⟩ := FileOrganizer.resolveIdx_spec occ stem suffix
    exact ⟨h1, rfl, h2, h3⟩
  · intro K
    obtain ⟨h1, h2, h3⟩ := FileOrganizer.placeK_spec stem suffix K
    refine ⟨?_, ?_, h2, h3⟩
    · rw [h2]
      exact List.Nodup.map (FileOrganizer.candidate_inj stem suffix) (List.nodup_range K)
    · rw [h2, List.length_map, List.length_range]

/-- Witness for C5: one occupied path, and three colliding placements. -/
theorem C5_collision_resolver_witness :
    FileOrganizer.resolvedTarget {"r.pdf"} "r" ".pdf" ∉ ({"r.pdf"} : Finset String) ∧
    (FileOrganizer.placeK "r" ".pdf" 3).2.Nodup ∧
    FileOrganizer.resolveIdx (FileOrganizer.placeK "r" ".pdf" 2).1 "r" ".pdf" = 2 :=
  ⟨((C5_collision_resolver "r" ".pdf").1 {"r.pdf"}).1,
   ((C5_collision_resolver "r" ".pdf").2 3).1,
   ((C5_collision_resolver "r" ".pdf").2 3).2.2.2 2 (by decide)⟩

/-! ## Lemmas: amount extraction (claim C7) -/

theorem extractAmountGo_eq_firstPositive (text : String) :
    ∀ ms, LocalAnalyzer.extractAmountGo text ms
      = match ms.findSome? (fun m =>
            let amounts := LocalAnalyzer.positiveAmounts m text
            if amounts ≠ [] then some (amounts.foldr max 0) else none) with
        | some q => q
        | none => 0 := by
  intro ms
  induction ms with
  | nil => rfl
  | cons m ms ih =>
    rw [LocalAnalyzer.extractAmountGo, List.findSome?_cons]
    dsimp only
    by_cases hf : LocalAnalyzer.findall m text ≠ []
    · rw [if_pos hf]
      by_cases ha : LocalAnalyzer.positiveAmounts m text ≠ []
      · rw [if_pos ha, if_pos ha]
      · rw [if_neg ha, if_neg ha, ih]
    · rw [if_neg hf]
      have ha : LocalAnalyzer.positiveAmounts m text = [] := by
        unfold LocalAnalyzer.positiveAmounts
        push_neg at hf
        rw [hf]
        rfl
      rw [if_neg (by simp [ha]), ih]

/-- C7 (counterexample): on the text `合计:0 5元` the first pattern that
matches at all (the label-anchored one) finds only the non-positive match
`0`, so the claim as stated returns `0`; the code instead falls through to
the bare `…元` pattern and returns `5`. -/
theorem C7_first_matching_pattern_counterexample :
    LocalAnalyzer._extract_amount "合计:0 5元" = 5 ∧
    SpecSide.amountClaimFirstMatching "合计:0 5元" = 0 ∧
    LocalAnalyzer.findall LocalAnalyzer.matchP1At "合计:0 5元" = ["0"] := by
  refine ⟨by decide, by decide, by decide⟩

/-- C7 (amended): the extractor commits to the first pattern with at least
one positive match and returns the maximum of that pattern's positive
matches, `0` when no pattern has a positive match; on a receipt line
`合计：¥128.50` it extracts `128.50`. -/
theorem C7_amount_extraction (text : String) :
    LocalAnalyzer._extract_amount text = SpecSide.amountFirstPositive text ∧
    LocalAnalyzer._extract_amount "合计：¥128.50" = 257 / 2 := by
  constructor
  · rw [LocalAnalyzer._extract_amount, SpecSide.amountFirstPositive,
      extractAmountGo_eq_firstPositive]
  · have h1 : LocalAnalyzer.parseFloatTok "128.50"
        = ((128 : ℕ) : ℚ) + ((50 : ℕ) : ℚ) / (10 ^ 2) := rfl
    have h2 : LocalAnalyzer.parseFloatTok "128.50" = 257 / 2 := by
      rw [h1]
      norm_num
    have h3 : LocalAnalyzer.findall LocalAnalyzer.matchP1At "合计：¥128.50"
        = ["128.50"] := by decide
    rw [LocalAnalyzer._extract_amount,
      show LocalAnalyzer.AMOUNT_PATTERNS
        = [LocalAnalyzer.matchP1At, LocalAnalyzer.matchP2At,
           LocalAnalyzer.matchP3At, LocalAnalyzer.matchP4At] from rfl,
      LocalAnalyzer.extractAmountGo]
    dsimp only
    rw [if_pos (by rw [h3]; simp)]
    have h4 : LocalAnalyzer.positiveAmounts LocalAnalyzer.matchP1At "合计：¥128.50"
        = [(257 : ℚ) / 2] := by
      unfold LocalAnalyzer.positiveAmounts
      rw [h3]
      rw [show (["128.50"].map LocalAnalyzer.parseFloatTok) = [(257 : ℚ) / 2] by
        rw [List.map_cons, List.map_nil, h2]]
      rw [List.filter_cons]
      norm_num
    rw [if_pos (by rw [h4]; simp), h4]
    show max ((257 : ℚ) / 2) 0 = 257 / 2
    rw [max_eq_left (by norm_num)]

/-! ## Lemmas: merchant normalization (claim C9) -/

theorem trimWs_sublist (x : List Char) : List.Sublist (trimWs x) x := by
  unfold trimWs
  have h1 : List.Sublist (x.dropWhile Char.isWhitespace) x := List.dropWhile_sublist _
  have h2 : List.Sublist ((x.dropWhile Char.isWhitespace).reverse.dropWhile Char.isWhitespace)
      (x.dropWhile Char.isWhitespace).reverse := List.dropWhile_sublist _
  have h3 := h2.reverse
  rw [List.reverse_reverse] at h3
  exact h3.trans h1

/-- C9 (counterexample): the character `公` is removed from the middle of
`公园` although it is neither a parenthesis nor part of a trailing
legal-entity suffix, so the claimed normalization (which leaves `公园`
unchanged) differs from the code. -/
theorem C9_suffix_strip_counterexample :
    FileOrganizer._normalize_merchant "公园" = "园" ∧
    SpecSide.normalizeNameClaim "公园" = "公园" ∧
    FileOrganizer._normalize_merchant "公园" ≠ SpecSide.normalizeNameClaim "公园" :=
  ⟨by decide, by decide, by decide⟩

/-- C9 (amended): the normalization removes every occurrence of each
character of the class `（）()【】[]有限公司科技股份` anywhere in the name —
not only as a suffix — then strips surrounding whitespace and lowercases;
the empty string maps to itself, and the result is always a subsequence of
the lowercased input (characters are only deleted, never changed or
reordered beyond lowering). -/
theorem C9_normalization_amended (name : String) :
    FileOrganizer._normalize_merchant "" = "" ∧
    (FileOrganizer._normalize_merchant name).data
      = (trimWs (name.data.filter
          (fun c => !FileOrganizer.removedChars.contains c))).map Char.toLower ∧
    List.Sublist (FileOrganizer._normalize_merchant name).data
      (name.data.map Char.toLower) ∧
    FileOrganizer._normalize_merchant "公园" = "园" := by
  have hchar : (FileOrganizer._normalize_merchant name).data
      = (trimWs (name.data.filter
          (fun c => !FileOrganizer.removedChars.contains c))).map Char.toLower := by
    unfold FileOrganizer._normalize_merchant
    by_cases h : name = ""
    · rw [if_pos h, h]
      rfl
    · rw [if_neg h]
      rfl
  refine ⟨rfl, hchar, ?_, by decide⟩
  rw [hchar]
  exact List.Sublist.map Char.toLower
    ((trimWs_sublist _).trans (List.filter_sublist _))

/-! ## Lemmas: totality and degradation to defaults (claim C8) -/

theorem detectGo_default (text : String) :
    ∀ L, (∀ p ∈ L, ∀ kw ∈ p.2, LocalAnalyzer.keywordHit text kw = false) →
      LocalAnalyzer.detectGo text L = ("other", "其他") := by
  intro L
  induction L with
  | nil => intro _; rfl
  | cons p rest ih =>
    obtain ⟨k, kws⟩ := p
    intro h
    have hany : kws.any (LocalAnalyzer.keywordHit text) = false := by
      rw [List.any_eq_false]
      intro kw hkw
      simp [h (k, kws) (List.mem_cons_self _ _) kw hkw]
    rw [LocalAnalyzer.detectGo, hany]
    exact ih fun q hq => h q (List.mem_cons_of_mem _ hq)

theorem dateScoreSrc_zero_of_unparseable {v i : InvoiceInfo}
    (h : parseYmd v.get_actual_date = none ∨
      parseYmd (FileOrganizer.invoiceServiceOrIssue i) = none) :
    FileOrganizer.dateScoreSrc v i = 0 := by
  unfold FileOrganizer.dateScoreSrc
  dsimp only
  split_ifs with hne
  · rcases h with h | h
    · rw [h]
    · rw [h]
      cases parseYmd v.get_actual_date <;> rfl
  · rfl

/-- C8: every sub-extraction and the score computation are total functions of
their inputs; a sub-extraction with no rule hit degrades to its empty or zero
default (`("other", "其他")`, amount `0`, empty date / invoice number /
merchant string, non-formal), and an unparseable date contributes `0` to the
match score instead of failing. -/
theorem C8_total_defaults (text : String) (v i : InvoiceInfo) :
    ((∀ p ∈ LocalAnalyzer.CATEGORY_KEYWORDS, ∀ kw ∈ p.2,
        LocalAnalyzer.keywordHit text kw = false) →
      LocalAnalyzer._detect_type text = ("other", "其他")) ∧
    ((∀ m ∈ LocalAnalyzer.AMOUNT_PATTERNS,
        LocalAnalyzer.positiveAmounts m text = []) →
      LocalAnalyzer._extract_amount text = 0) ∧
    ((LocalAnalyzer.searchStr LocalAnalyzer.matchDate1At text.data = none ∧
      LocalAnalyzer.searchStr LocalAnalyzer.matchDate8At text.data = none) →
      LocalAnalyzer._extract_date text = "") ∧
    ((LocalAnalyzer.searchStr (LocalAnalyzer.matchInvLabelAt "发票号码".data)
          text.data = none ∧
      LocalAnalyzer.searchStr LocalAnalyzer.matchNoAt text.data = none ∧
      LocalAnalyzer.searchStr (LocalAnalyzer.matchInvLabelAt "发票代码".data)
          text.data = none) →
      LocalAnalyzer._extract_invoice_number text = "") ∧
    ((∀ kw ∈ LocalAnalyzer.invoiceKeywords, strContains text kw = false) →
      LocalAnalyzer._is_formal_invoice text = false) ∧
    ((LocalAnalyzer.searchStr LocalAnalyzer.matchM1At text.data = none ∧
      LocalAnalyzer.searchStr LocalAnalyzer.matchM2At text.data = none) →
      LocalAnalyzer._extract_merchant text = "") ∧
    ((parseYmd v.get_actual_date = none ∨
      parseYmd (FileOrganizer.invoiceServiceOrIssue i) = none) →
      FileOrganizer._calculate_match_score v i
        = FileOrganizer.identScoreSrc v i + FileOrganizer.amountScoreSrc v i
          + FileOrganizer.typeScoreSrc v i) := by
  refine ⟨?_, ?_, ?_, ?_, ?_, ?_, ?_⟩
  · intro h
    exact detectGo_default text LocalAnalyzer.CATEGORY_KEYWORDS h
  · intro h
    rw [LocalAnalyzer._extract_amount, extractAmountGo_eq_firstPositive,
      List.findSome?_eq_none_iff.mpr]
    intro m hm
    simp [h m hm]
  · intro h
    rw [LocalAnalyzer._extract_date, h.1, h.2]
  · intro h
    rw [LocalAnalyzer._extract_invoice_number, h.1, h.2.1, h.2.2]
  · intro h
    rw [LocalAnalyzer._is_formal_invoice, List.any_eq_false]
    intro kw hkw
    simp [h kw hkw]
  · intro h
    rw [LocalAnalyzer._extract_merchant, h.1, h.2]
  · intro h
    rw [show FileOrganizer._calculate_match_score v i
        = FileOrganizer.identScoreSrc v i + FileOrganizer.dateScoreSrc v i
          + FileOrganizer.amountScoreSrc v i + FileOrganizer.typeScoreSrc v i from rfl,
      dateScoreSrc_zero_of_unparseable h]
    omega

/-- Witness for C8: a text hitting no rule at all and two records with
unparseable (empty) dates. -/
theorem C8_total_defaults_witness :
    LocalAnalyzer._detect_type "xyz" = ("other", "其他") ∧
    LocalAnalyzer._extract_amount "xyz" = 0 ∧
    LocalAnalyzer._extract_date "xyz" = "" ∧
    LocalAnalyzer._extract_invoice_number "xyz" = "" ∧
    LocalAnalyzer._is_formal_invoice "xyz" = false ∧
    LocalAnalyzer._extract_merchant "xyz" = "" ∧
    FileOrganizer._calculate_match_score (LocalAnalyzer._create_empty_info "f" "d")
        (LocalAnalyzer._create_empty_info "g" "e")
      = FileOrganizer.identScoreSrc (LocalAnalyzer._create_empty_info "f" "d")
          (LocalAnalyzer._create_empty_info "g" "e")
        + FileOrganizer.amountScoreSrc (LocalAnalyzer._create_empty_info "f" "d")
          (LocalAnalyzer._create_empty_info "g" "e")
        + FileOrganizer.typeScoreSrc (LocalAnalyzer._create_empty_info "f" "d")
          (LocalAnalyzer._create_empty_info "g" "e") := by
  obtain ⟨h1, h2, h3, h4, h5, h6, h7⟩ := C8_total_defaults "xyz"
    (LocalAnalyzer._create_empty_info "f" "d") (LocalAnalyzer._create_empty_info "g" "e")
  exact ⟨h1 (by decide), h2 (by decide), h3 (by decide), h4 (by decide),
    h5 (by decide), h6 (by decide), h7 (by decide)⟩
